import Mathlib

/-!
# imdb-enhanced-search: the filter engine of `search/filter.go`

A shallow embedding of `search/filter.go` (with the record types of
`search/movie.go`, `search/config.go` and the `rating` record), followed by
theorems about it.

Conventions of the embedding.

* Go `int` is the 64-bit two's-complement integer: a value is an `Int`, and
  every addition, subtraction and division of `partitionSlice` is wrapped
  by `wrapInt`.
* Go `string` is its byte sequence, `GoString`.
* Go `float64` is `Float64`: NaN, the two infinities, or a finite value given
  by its exact rational value.  Only the ordering comparisons are used.
* A Go `map[string]T` is the list of its entries in the order in which the
  `range` loop of the run at hand visits them; a second run over the same map
  is a permutation of that list.
* A run that panics is `Outcome.panicked`; a loop that has not finished after
  the given number of iterations is `Outcome.outOfFuel`.
* The goroutine scheduler and `rand.IntN` are oracles passed as arguments:
  `sched` names the worker whose send the channel takes next, `rnd i` is the
  draw of round `i` of the shuffle.
* `make` is modelled where its size is not the size of the dataset, that is
  for the chunk table `make([][]Movie, 0, numWorkers)`: the runtime panics on
  a negative capacity and on a block larger than `maxAlloc`. Running out of
  memory below that bound is not modelled, so a return of `partitionSlice`
  or `FilterMovies` is stated only for a worker count of at most `n + 2` on
  a dataset of `n` titles. A dataset of `n` titles is in memory, so
  `n * movieSize ≤ maxAlloc`; theorems that need the bound carry it as a
  hypothesis.
-/

namespace Search

/-! ## Go values -/

/-- A Go string: its bytes. -/
abbrev GoString := List Nat

/-- The bytes (UTF-8) of a string literal. -/
def bytes (s : String) : GoString :=
  s.toList.flatMap fun c => (String.utf8EncodeChar c).map UInt8.toNat

/-- The value of a Go `int` after an arithmetic operation: the two's-complement
64-bit representative of `x`. -/
def wrapInt (x : Int) : Int := (x + 2 ^ 63) % 2 ^ 64 - 2 ^ 63

/-- The largest Go `int`, `math.MaxInt`. -/
def maxInt : Int := 2 ^ 63 - 1

/-- Go `float64`, as the ordering comparisons see it. -/
inductive Float64 where
  | nan : Float64
  | negInf : Float64
  | fin (q : ℚ) : Float64
  | posInf : Float64
deriving DecidableEq

/-- Go `x <= y` on `float64`: false as soon as one side is NaN. -/
def Float64.le : Float64 → Float64 → Bool
  | .nan, _ => false
  | _, .nan => false
  | .negInf, _ => true
  | _, .posInf => true
  | .fin a, .fin b => decide (a ≤ b)
  | .fin _, .negInf => false
  | .posInf, .fin _ => false
  | .posInf, .negInf => false

/-- Go `x >= y` on `float64`. -/
def Float64.ge (x y : Float64) : Bool := Float64.le y x

/-- What a run of Go code ends in. -/
inductive Outcome (α : Type) where
  | ok (a : α) : Outcome α
  | panicked : Outcome α
  | outOfFuel : Outcome α
deriving DecidableEq

/-- A Go `map[string]T`, as the entries in the order `range` visits them. -/
abbrev GoMap (α : Type) := List (GoString × α)

/-- The two-valued map read `v, ok := m[k]`. -/
def GoMap.get {α : Type} (m : GoMap α) (k : GoString) : Option α :=
  List.lookup k m

/-! ## Records (`movie.go`, `config.go`, `load.go`) -/

/-- The record `Movie` of `movie.go`; a nil `*int` is `none`. -/
structure Movie where
  Id : GoString
  titleType : GoString
  PrimaryTitle : GoString
  originalTitle : GoString
  isAdult : Bool
  StartYear : Option Int
  endYear : Option Int
  runtimeMinutes : Option Int
  Genres : List GoString
deriving DecidableEq

/-- The record `rating`. -/
structure rating where
  AverageRating : Float64
  NumVotes : Int
deriving DecidableEq

/-- The record `config` of `config.go`. -/
structure config where
  DownloadData : Bool
  minYear : Int
  maxYear : Int
  minRating : Float64
  minVotes : Int
  maxVotes : Int
  maxRuntime : Int
  minRuntime : Int
  genres : List GoString
  excludeAdult : Bool

/-- The zero value of `rating`, which `ratings[id]` yields for a missing key. -/
def rating.zero : rating := ⟨.fin 0, 0⟩

/-! ## Limits of the 64-bit runtime -/

/-- The bound `maxAlloc` of the Go runtime on 64-bit targets (48 address bits):
`make` panics when the requested block is larger. -/
def maxAlloc : Nat := 2 ^ 48

/-- Size in bytes of a slice header, the element type of `[][]Movie`. -/
def sliceHeaderSize : Nat := 24

/-- Size in bytes of a `Movie` value: four strings, a padded bool, three
pointers and a slice header. -/
def movieSize : Nat := 120

/-! ## The partitioner -/

/-- The slice expression `movies[lo:hi]` for in-range bounds. -/
def subSlice {α : Type} (l : List α) (lo hi : Nat) : List α :=
  (l.drop lo).take (hi - lo)

/-- The `for` loop of `partitionSlice` (lines 142-148), from the state
`(i, chunks)`. A slice expression with bounds out of range panics. -/
def partitionLoop (movies : List Movie) (chunkSize : Int) :
    Nat → Int → List (List Movie) → Outcome (List (List Movie))
  | 0, _, _ => .outOfFuel
  | fuel + 1, i, chunks =>
    if i < (movies.length : Int) then
      let end0 := wrapInt (i + chunkSize)
      let end1 := if end0 > (movies.length : Int) then (movies.length : Int) else end0
      if 0 ≤ i ∧ i ≤ end1 then
        partitionLoop movies chunkSize fuel (wrapInt (i + chunkSize))
          (chunks ++ [subSlice movies i.toNat end1.toNat])
      else .panicked
    else .ok chunks

/-- The function `partitionSlice` (lines 134-151). The division panics on a
zero divisor; `make([][]Movie, 0, numWorkers)` panics on a negative capacity
and on one whose block exceeds `maxAlloc`. A capacity that `make` accepts
can still be more than the host has memory for, and the run then aborts with
a fatal out-of-memory error: this outcome has no counterpart here. The
theorems below state that the function returns only for a worker count no
larger than the number of titles plus two, a chunk table smaller than the
dataset that is in memory already. -/
def partitionSlice (fuel : Nat) (movies : List Movie) (numWorkers : Int) :
    Outcome (List (List Movie)) :=
  if movies.length = 0 then .ok []
  else if numWorkers = 0 then .panicked
  else
    let chunkSize :=
      wrapInt (Int.tdiv (wrapInt (wrapInt ((movies.length : Int) + numWorkers) - 1)) numWorkers)
    if numWorkers < 0 ∨ numWorkers * sliceHeaderSize > maxAlloc then .panicked
    else partitionLoop movies chunkSize fuel 0 []

/-! ## Strings: `strings.ToLower`, `strings.ToUpper`, `strconv.Atoi` -/

/-- The Unicode slow paths of the Go `strings` package, `strings.Map(unicode.ToLower, s)`
and `strings.Map(unicode.ToUpper, s)`, which are taken only by a string that
has a byte outside ASCII. The case tables behind them are not part of the
embedding, apart from three facts: `strings.Map` writes at least one byte for
each rune it reads; U+00E9 (bytes C3 A9) is its own lower case; U+00C3
(bytes C3 83) is its own upper case. -/
structure CaseTables where
  mapLower : GoString → GoString
  mapUpper : GoString → GoString
  mapLower_ne_nil : ∀ s, s ≠ [] → mapLower s ≠ []
  mapLower_e_acute : mapLower [195, 169] = [195, 169]
  mapUpper_A_tilde : mapUpper [195, 131] = [195, 131]

/-- The ASCII scan at the head of `strings.ToLower` and `strings.ToUpper`:
no byte is `utf8.RuneSelf` (0x80) or above. -/
def isASCII (s : GoString) : Bool := s.all fun c => decide (c < 128)

/-- The ASCII branch of `strings.ToLower` on one byte: `c += 'a' - 'A'` for
`'A' <= c && c <= 'Z'`. -/
def lowerByte (c : Nat) : Nat := if 65 ≤ c ∧ c ≤ 90 then c + 32 else c

/-- The ASCII branch of `strings.ToUpper` on one byte: `c -= 'a' - 'A'` for
`'a' <= c && c <= 'z'`. -/
def upperByte (c : Nat) : Nat := if 97 ≤ c ∧ c ≤ 122 then c - 32 else c

/-- Go `strings.ToLower`. -/
def ToLower (t : CaseTables) (s : GoString) : GoString :=
  if isASCII s then s.map lowerByte else t.mapLower s

/-- Go `strings.ToUpper`. -/
def ToUpper (t : CaseTables) (s : GoString) : GoString :=
  if isASCII s then s.map upperByte else t.mapUpper s

/-- The conversion `string(b)` of a byte `b`: the UTF-8 encoding of the rune
whose code point is `b`. -/
def stringOfByte (b : Nat) : GoString :=
  if b < 128 then [b] else [192 + b / 64, 128 + b % 64]

/-- Go `strconv.Atoi` for the 64-bit `int`: an optional sign, then one or more
decimal digits, and a value the type can hold; `none` is a non-nil error. -/
def Atoi (s : GoString) : Option Int :=
  let signed : Bool × GoString :=
    match s with
    | 45 :: rest => (true, rest)
    | 43 :: rest => (false, rest)
    | _ => (false, s)
  let digits := signed.2
  if digits = [] then none
  else if digits.all fun c => decide (48 ≤ c ∧ c ≤ 57) then
    let n : Int := digits.foldl (fun (n : Int) c => n * 10 + ((c : Int) - 48)) 0
    let v : Int := if signed.1 then -n else n
    if -(2 ^ 63) ≤ v ∧ v ≤ maxInt then some v else none
  else none

/-! ## The predicate evaluator -/

/-- The function `normalizeGenre` (lines 175-181). `lower[0]` is the first
byte of `lower`; the empty case of the match is the index out of range,
which `CaseTables.mapLower_ne_nil` excludes. -/
def normalizeGenre (t : CaseTables) (genre : GoString) : GoString :=
  if genre = [] then []
  else
    match ToLower t genre with
    | [] => []
    | b :: rest => ToUpper t (stringOfByte b) ++ rest

/-- The assignment `m[k] = v` on a map. -/
def GoMap.set {α : Type} (m : GoMap α) (k : GoString) (v : α) : GoMap α :=
  if (m.get k).isSome then m.map fun e => if e.1 = k then (k, v) else e
  else m ++ [(k, v)]

/-- The read `m[k]` of a `map[string]bool`: false for a missing key. -/
def GoMap.getBool (m : GoMap Bool) (k : GoString) : Bool :=
  (m.get k).getD false

/-- The second loop of `hasGenre` (lines 167-172). -/
def hasGenreLoop (t : CaseTables) (genreSet : GoMap Bool) : List GoString → Bool
  | [] => false
  | g :: gs =>
    if genreSet.getBool (normalizeGenre t g) then true else hasGenreLoop t genreSet gs

/-- The function `hasGenre` (lines 161-173). -/
def hasGenre (t : CaseTables) (movieGenres filterGenres : List GoString) : Bool :=
  let genreSet : GoMap Bool := movieGenres.foldl (fun set g => set.set g true) []
  hasGenreLoop t genreSet filterGenres

/-- The function `passesAdultFilter` (lines 80-82). -/
def passesAdultFilter (movie : Movie) (cfg : config) : Bool :=
  !cfg.excludeAdult || !movie.isAdult

/-- The function `passesYearFilter` (lines 84-91). -/
def passesYearFilter (movie : Movie) (cfg : config) : Bool :=
  match movie.StartYear with
  | none => false
  | some year => decide (year ≥ cfg.minYear) && decide (year ≤ cfg.maxYear)

/-- The function `passesRuntimeFilter` (lines 93-100). -/
def passesRuntimeFilter (movie : Movie) (cfg : config) : Bool :=
  match movie.runtimeMinutes with
  | none => false
  | some runtime => decide (runtime ≥ cfg.minRuntime) && decide (runtime ≤ cfg.maxRuntime)

/-- The function `passesRatingFilter` (lines 102-109). -/
def passesRatingFilter (rating : rating) (hasRating : Bool) (cfg : config) : Bool :=
  if !hasRating then false
  else
    rating.AverageRating.ge cfg.minRating &&
      decide (rating.NumVotes ≥ cfg.minVotes) && decide (rating.NumVotes ≤ cfg.maxVotes)

/-- The function `passesGenreFilter` (lines 111-117). -/
def passesGenreFilter (t : CaseTables) (movie : Movie) (cfg : config) : Bool :=
  if cfg.genres.length = 0 then true
  else hasGenre t movie.Genres cfg.genres

/-- The function `shouldIncludeMovie` (lines 72-78). -/
def shouldIncludeMovie (t : CaseTables) (movie : Movie) (rating : rating) (hasRating : Bool)
    (cfg : config) : Bool :=
  passesAdultFilter movie cfg &&
    passesYearFilter movie cfg &&
    passesRuntimeFilter movie cfg &&
    passesRatingFilter rating hasRating cfg &&
    passesGenreFilter t movie cfg

/-- The read `rating, hasRating := ratings[movie.Id]` (line 62). -/
def lookupRating (ratings : GoMap rating) (id : GoString) : rating × Bool :=
  match ratings.get id with
  | some r => (r, true)
  | none => (rating.zero, false)

/-- The function `filterMovieSlice` (lines 58-70). -/
def filterMovieSlice (t : CaseTables) (movies : List Movie) (ratings : GoMap rating)
    (cfg : config) : List Movie :=
  movies.foldl
    (fun results movie =>
      let r := lookupRating ratings movie.Id
      if shouldIncludeMovie t movie r.1 r.2 cfg then results ++ [movie] else results)
    []

/-! ## Shuffle, fan-in and the two entry points -/

/-- The exchange `movies[i], movies[j] = movies[j], movies[i]`. -/
def swapAt (movies : List Movie) (i j : Nat) : List Movie :=
  match movies[i]?, movies[j]? with
  | some a, some b => (movies.set i b).set j a
  | _, _ => movies

/-- The function `randomizeResults` (lines 119-124); `rnd i` is the value that
`rand.IntN(i + 1)` returns in round `i`. -/
def randomizeResults (rnd : (i : Nat) → Fin (i + 1)) (movies : List Movie) : List Movie :=
  (List.range movies.length).foldl (fun ms i => swapAt ms i (rnd i)) movies

/-- The function `mapToSlice` (lines 126-132). -/
def mapToSlice (movies : GoMap Movie) : List Movie :=
  movies.foldl (fun slice entry => slice ++ [entry.2]) []

/-- Take the next pending send of worker `k`, if it has one. -/
def popAt : Nat → List (List Movie) → Option (Movie × List (List Movie))
  | _, [] => none
  | 0, [] :: _ => none
  | 0, (m :: q) :: qs => some (m, q :: qs)
  | k + 1, q :: qs =>
    match popAt k qs with
    | some (m, qs1) => some (m, q :: qs1)
    | none => none

/-- The function `collectFromChannel` (lines 153-159) reading what the worker
goroutines of `FilterMovies` (lines 37-46) send: `pending` holds, for each
worker, the matches it has still to send, in its order; `sched` names the
worker whose send the channel takes next (a worker with nothing pending is
passed over). When the schedule is used up the remaining sends are taken
worker by worker. -/
def collectFromChannel : List Nat → List (List Movie) → List Movie
  | [], pending => pending.flatten
  | k :: sched, pending =>
    match popAt k pending with
    | some (m, pending1) => m :: collectFromChannel sched pending1
    | none => collectFromChannel sched pending

/-- The worker count of `FilterMovies` (lines 27-34): `numCPU` is
`runtime.NumCPU()` and `altWorkers` is `os.Getenv("IMDB_SEARCH_WORKERS")`,
empty when the variable is not set. -/
def numWorkers (numCPU : Int) (altWorkers : GoString) : Int :=
  if altWorkers ≠ [] then
    match Atoi altWorkers with
    | some num => num
    | none => numCPU
  else numCPU

/-- The function `FilterMoviesSync` (lines 13-18). -/
def FilterMoviesSync (t : CaseTables) (rnd : (i : Nat) → Fin (i + 1)) (movies : GoMap Movie)
    (ratings : GoMap rating) (cfg : config) : List Movie :=
  let movieSlice := mapToSlice movies
  let filtered := filterMovieSlice t movieSlice ratings cfg
  randomizeResults rnd filtered

/-- The function `FilterMovies` (lines 21-56). -/
def FilterMovies (t : CaseTables) (fuel : Nat) (numCPU : Int) (altWorkers : GoString)
    (sched : List Nat) (rnd : (i : Nat) → Fin (i + 1)) (movies : GoMap Movie)
    (ratings : GoMap rating) (cfg : config) : Outcome (List Movie) :=
  let movieSlice := mapToSlice movies
  match partitionSlice fuel movieSlice (numWorkers numCPU altWorkers) with
  | .ok chunks =>
    let results := collectFromChannel sched (chunks.map fun chunk => filterMovieSlice t chunk ratings cfg)
    .ok (randomizeResults rnd results)
  | .panicked => .panicked
  | .outOfFuel => .outOfFuel

/-! ## Auxiliary definitions for the statements -/

/-- The chunk size `ceil(n / w)`, as the natural-number quotient `(n + w - 1) / w`. -/
def ceilDiv (n w : Nat) : Nat := (n + w - 1) / w

/-- The chunk that starts at position `k * c`: positions `k * c` up to, not
including, `min ((k + 1) * c) n`. -/
def chunkAt (movies : List Movie) (c k : Nat) : List Movie :=
  subSlice movies (k * c) (min ((k + 1) * c) movies.length)

/-- The chunks of size `c` in order. -/
def chunksOf (movies : List Movie) (c : Nat) : List (List Movie) :=
  (List.range (ceilDiv movies.length c)).map (chunkAt movies c)

/-- The test of line 64 for one title: `shouldIncludeMovie` with the rating
read from the table under the title's id. -/
def matchesTitle (t : CaseTables) (ratings : GoMap rating) (cfg : config) (movie : Movie) : Bool :=
  shouldIncludeMovie t movie (lookupRating ratings movie.Id).1 (lookupRating ratings movie.Id).2 cfg

/-- The orders in which the channel can deliver what the workers send:
`Merge pending out` holds when `out` takes, one send at a time, the next
pending send of some worker, until no worker has one left. -/
inductive Merge : List (List Movie) → List Movie → Prop
  | done (pending : List (List Movie)) : (∀ q ∈ pending, q = []) → Merge pending []
  | send (k : Nat) (pending rest : List (List Movie)) (m : Movie) (out : List Movie) :
      popAt k pending = some (m, rest) → Merge rest out → Merge pending (m :: out)

/-! ## Fixtures (`filter_test.go`) -/

/-- Case tables whose slow paths hand their argument back. The strings of the
fixtures are ASCII, so no evaluation below reaches them. -/
def fixtureTables : CaseTables := ⟨id, id, fun _ h => h, rfl, rfl⟩

/-- The helper `createTestMovie` of `filter_test.go` (lines 19-28). -/
def createTestMovie (id title : GoString) (isAdult : Bool) (year runtime : Int)
    (genres : List GoString) : Movie :=
  { Id := id, titleType := [], PrimaryTitle := title, originalTitle := [], isAdult := isAdult,
    StartYear := some year, endYear := none, runtimeMinutes := some runtime, Genres := genres }

/-- The helper `createTestRating` of `filter_test.go` (lines 30-35). -/
def createTestRating (avgRating : Float64) (numVotes : Int) : rating :=
  { AverageRating := avgRating, NumVotes := numVotes }

/-- The titles of `setupTestData` (lines 39-48), visited in the order of the
source text. -/
def testMovies : GoMap Movie :=
  [ (bytes "1", createTestMovie (bytes "1") (bytes "Action Hero") false 2020 120 [bytes "Action"]),
    (bytes "2", createTestMovie (bytes "2") (bytes "Adult Drama") true 2019 90 [bytes "Drama"]),
    (bytes "3", createTestMovie (bytes "3") (bytes "Thriller Night") false 2021 150
      [bytes "Action", bytes "Thriller"]),
    (bytes "4", createTestMovie (bytes "4") (bytes "Comedy Show") false 2018 60 [bytes "Comedy"]),
    (bytes "5", createTestMovie (bytes "5") (bytes "Action Pack") false 2022 130 [bytes "Action"]),
    (bytes "6", createTestMovie (bytes "6") (bytes "Old Classic") false 2005 100 [bytes "Drama"]),
    (bytes "7", createTestMovie (bytes "7") (bytes "Long Epic") false 2020 200 [bytes "Drama"]),
    (bytes "8", createTestMovie (bytes "8") (bytes "Short Film") false 2020 45
      [bytes "Documentary"]) ]

/-- The ratings of `setupTestData` (lines 50-59); 7.8 and 8.2 are the exact
values of the nearest `float64`. -/
def testRatings : GoMap rating :=
  [ (bytes "1", createTestRating (.fin (17 / 2)) 10000),
    (bytes "2", createTestRating (.fin (8782019273372467 / 1125899906842624)) 8000),
    (bytes "3", createTestRating (.fin 9) 15000),
    (bytes "4", createTestRating (.fin (13 / 2)) 3000),
    (bytes "5", createTestRating (.fin 8) 12000),
    (bytes "6", createTestRating (.fin (15 / 2)) 20000),
    (bytes "7", createTestRating (.fin (2308094809027379 / 281474976710656)) 5000),
    (bytes "8", createTestRating (.fin 7) 2000) ]

/-- The criteria of `TestFilterMovies_MoreWorkersThanFilms` (lines 479-489). -/
def wideConfig : config :=
  { DownloadData := false, minYear := 0, maxYear := maxInt, minRating := .fin 0, minVotes := 0,
    maxVotes := maxInt, maxRuntime := maxInt, minRuntime := 0, genres := [],
    excludeAdult := false }

/-- A random source whose every draw `rand.IntN(i + 1)` is 0. -/
def zeroDraws : (i : Nat) → Fin (i + 1) := fun _ => 0

/-- A dataset of two titles: the first two of the fixture. -/
def twoMovies : GoMap Movie := testMovies.take 2

/-- The two titles of `twoMovies` as a slice. -/
def twoTitles : List Movie := mapToSlice twoMovies

/-- The first title of the fixture with its start year removed. -/
def noYearTitle : Movie :=
  { createTestMovie (bytes "1") (bytes "Action Hero") false 2020 120 [bytes "Action"] with
    StartYear := none }

/-- The criteria of `wideConfig` with adult titles excluded. -/
def noAdultConfig : config := { wideConfig with excludeAdult := true }

/-! ## Auxiliary definitions: the shuffle -/

/-- The list after the first `k` rounds of `randomizeResults`. -/
def shuffleSteps (rnd : (i : Nat) → Fin (i + 1)) (k : Nat) (movies : List Movie) : List Movie :=
  (List.range k).foldl (fun ms i => swapAt ms i (rnd i)) movies

/-- A draw vector `(j_0, ..., j_{n-1})` with `j_i ≤ i`, as a random source:
round `i < n` draws `j_i`; the rounds from `n` on, which a list of `n`
elements never reaches, draw 0. -/
def drawsOfVector {n : Nat} (v : (i : Fin n) → Fin (i.val + 1)) : (i : Nat) → Fin (i + 1) :=
  fun i => if h : i < n then v ⟨i, h⟩ else 0

/-! ## Auxiliary definitions: genres and further fixtures -/

/-- Equality of two strings when the case of the ASCII letters is ignored,
the reading of "case-insensitively" for the genre vocabulary. -/
def equalFold (a b : GoString) : Bool := decide (a.map lowerByte = b.map lowerByte)

/-- Upper case for the first byte of a string. -/
def capitalize : GoString → GoString
  | [] => []
  | b :: rest => upperByte b :: rest

/-- A title tagged "Sci-Fi", with the attributes of the first title of the
fixture. -/
def sciFiTitle : Movie :=
  createTestMovie (bytes "9") (bytes "Space Saga") false 2020 120 [bytes "Sci-Fi"]

/-- The criteria of `wideConfig` with the requested genres `genres`. -/
def genreConfig (genres : List GoString) : config := { wideConfig with genres := genres }

/-- The criteria of `TestFilterMovies_CombinedFilters` (lines 405-415). -/
def combinedConfig : config :=
  { DownloadData := false, minYear := 2019, maxYear := 2022, minRating := .fin 8,
    minVotes := 10000, maxVotes := 9999999, maxRuntime := 180, minRuntime := 100,
    genres := [bytes "Action"], excludeAdult := true }

/-- The criteria of `TestFilterMovies_NoResultsCase` (lines 445-454); the
field `maxVotes`, not set there, is zero. -/
def noResultsConfig : config :=
  { DownloadData := false, minYear := 2030, maxYear := 2040, minRating := .fin 0,
    minVotes := 0, maxVotes := 0, maxRuntime := 300, minRuntime := 0,
    genres := [], excludeAdult := false }

/-- The first title of the fixture. -/
def firstTitle : Movie :=
  createTestMovie (bytes "1") (bytes "Action Hero") false 2020 120 [bytes "Action"]

/-! ## Lemmas: the partitioner -/

theorem wrapInt_of_inRange (x : Int) (h1 : -(2 ^ 63) ≤ x) (h2 : x < 2 ^ 63) : wrapInt x = x := by
  unfold wrapInt
  omega

theorem lt_ceilDiv_iff (n c k : Nat) (hc : 1 ≤ c) : k < ceilDiv n c ↔ k * c < n := by
  unfold ceilDiv
  rw [Nat.lt_iff_add_one_le, Nat.le_div_iff_mul_le (by omega), Nat.add_mul]
  omega

theorem le_mul_ceilDiv (n w : Nat) (hw : 1 ≤ w) : n ≤ w * ceilDiv n w := by
  unfold ceilDiv
  have h := Nat.div_add_mod (n + w - 1) w
  have h2 := Nat.mod_lt (n + w - 1) (show w > 0 by omega)
  omega

theorem ceilDiv_ceilDiv_le (n w : Nat) (hw : 1 ≤ w) (hn : 1 ≤ n) :
    ceilDiv n (ceilDiv n w) ≤ w := by
  have hc : 1 ≤ ceilDiv n w := by
    have := (lt_ceilDiv_iff n w 0 hw).2 (by omega)
    omega
  by_contra hlt
  have h1 : w < ceilDiv n (ceilDiv n w) := by omega
  have h2 := (lt_ceilDiv_iff n (ceilDiv n w) w hc).1 h1
  have h3 := le_mul_ceilDiv n w hw
  omega

theorem ceilDiv_le_self (n w : Nat) (hw : 1 ≤ w) : ceilDiv n w ≤ n := by
  unfold ceilDiv
  rcases Nat.eq_zero_or_pos n with h | h
  · subst h
    rw [Nat.zero_add, Nat.div_eq_of_lt (by omega)]
  · calc (n + w - 1) / w ≤ (n * w) / w := by
          apply Nat.div_le_div_right
          have : n + w ≤ n * w + 1 := by
            obtain ⟨a, rfl⟩ : ∃ a, n = a + 1 := ⟨n - 1, by omega⟩
            obtain ⟨b, rfl⟩ : ∃ b, w = b + 1 := ⟨w - 1, by omega⟩
            have : (a + 1) * (b + 1) = a * b + a + b + 1 := by ring
            omega
          omega
      _ = n := Nat.mul_div_cancel n (by omega)

theorem partitionLoop_chunksOf (movies : List Movie) (c : Nat) (hc : 1 ≤ c)
    (hb : movies.length + c < 2 ^ 63) :
    ∀ (fuel k : Nat), ceilDiv movies.length c < k + fuel → k ≤ ceilDiv movies.length c →
      partitionLoop movies (c : Int) fuel ((k * c : Nat) : Int)
        ((List.range k).map (chunkAt movies c)) = .ok (chunksOf movies c) := by
  intro fuel
  induction fuel with
  | zero => intro k h1 h2; omega
  | succ f ih =>
    intro k h1 h2
    unfold partitionLoop
    by_cases hk : k < ceilDiv movies.length c
    · have hlt : k * c < movies.length := (lt_ceilDiv_iff _ c k hc).1 hk
      have hw : wrapInt (((k * c : Nat) : Int) + (c : Int)) = (((k + 1) * c : Nat) : Int) := by
        rw [wrapInt_of_inRange]
        · push_cast; ring
        · omega
        · omega
      have hi : ((k * c : Nat) : Int) < (movies.length : Int) := by exact_mod_cast hlt
      simp only [hi, if_true, hw]
      have hend : (if (((k + 1) * c : Nat) : Int) > (movies.length : Int) then (movies.length : Int)
          else (((k + 1) * c : Nat) : Int)) = ((min ((k + 1) * c) movies.length : Nat) : Int) := by
        split_ifs with h
        · have : movies.length < (k + 1) * c := by exact_mod_cast h
          rw [Nat.min_eq_right (by omega)]
        · have : ¬ movies.length < (k + 1) * c := by
            intro h'
            apply h
            exact_mod_cast h'
          rw [Nat.min_eq_left (by omega)]
      rw [hend]
      have hcond : (0 : Int) ≤ ((k * c : Nat) : Int) ∧
          ((k * c : Nat) : Int) ≤ ((min ((k + 1) * c) movies.length : Nat) : Int) := by
        refine ⟨Int.ofNat_nonneg _, ?_⟩
        have : k * c ≤ min ((k + 1) * c) movies.length := by
          rw [Nat.add_mul]
          omega
        exact_mod_cast this
      simp only [hcond, and_self, if_true, Int.toNat_ofNat]
      have := ih (k + 1) (by omega) (by omega)
      rw [List.range_succ, List.map_append] at this
      exact this
    · have hk2 : k = ceilDiv movies.length c := by omega
      have hge : ¬ k * c < movies.length := by
        intro h
        exact hk ((lt_ceilDiv_iff _ c k hc).2 h)
      have hi : ¬ ((k * c : Nat) : Int) < (movies.length : Int) := by
        intro h
        apply hge
        exact_mod_cast h
      simp only [hi, if_false]
      rw [hk2]
      rfl

theorem ceilDiv_pos (n w : Nat) (hw : 1 ≤ w) (hn : 1 ≤ n) : 1 ≤ ceilDiv n w := by
  have := (lt_ceilDiv_iff n w 0 hw).2 (by omega)
  omega

theorem chunksOf_nil (c : Nat) : chunksOf [] c = [] := by
  unfold chunksOf ceilDiv
  rcases Nat.eq_zero_or_pos c with h | h
  · subst h; rfl
  · rw [List.length_nil, Nat.zero_add, Nat.div_eq_of_lt (by omega)]; rfl

/-- A chunk table of at most `n + 2` slice headers is smaller than a dataset
of `n` titles, so `make` accepts it. -/
theorem capacity_of_le (n W : Nat) (hN : n * movieSize ≤ maxAlloc) (hWN : W ≤ n + 2) :
    W * sliceHeaderSize ≤ maxAlloc := by
  simp only [maxAlloc, sliceHeaderSize, movieSize] at hN ⊢
  omega

/-- With a worker count between 1 and the number of titles plus two, on a
slice that fits the address space, `partitionSlice` returns the chunks of
size `ceil(n / w)`. -/
theorem partitionSlice_eq (fuel : Nat) (movies : List Movie) (W : Nat) (h1 : 1 ≤ W)
    (hWN : W ≤ movies.length + 2) (hN : movies.length * movieSize ≤ maxAlloc)
    (hf : movies.length < fuel) :
    partitionSlice fuel movies (W : Int) = .ok (chunksOf movies (ceilDiv movies.length W)) := by
  have hW : W * sliceHeaderSize ≤ maxAlloc := capacity_of_le _ W hN hWN
  unfold partitionSlice
  by_cases h0 : movies.length = 0
  · rw [if_pos h0]
    have : movies = [] := List.length_eq_zero.1 h0
    subst this
    rw [chunksOf_nil]
  · rw [if_neg h0]
    have hW0 : ¬ ((W : Int) = 0) := by omega
    rw [if_neg hW0]
    simp only [maxAlloc, sliceHeaderSize, movieSize] at hW hN
    have hsum : wrapInt (((movies.length : Int)) + (W : Int)) = ((movies.length + W : Nat) : Int) := by
      rw [wrapInt_of_inRange] <;> omega
    have hsub : wrapInt (((movies.length + W : Nat) : Int) - 1) = ((movies.length + W - 1 : Nat) : Int) := by
      rw [wrapInt_of_inRange] <;> omega
    have hdiv : Int.tdiv ((movies.length + W - 1 : Nat) : Int) (W : Int)
        = ((ceilDiv movies.length W : Nat) : Int) := rfl
    have hcle := ceilDiv_le_self movies.length W h1
    have hcs : wrapInt ((ceilDiv movies.length W : Nat) : Int) = ((ceilDiv movies.length W : Nat) : Int) := by
      rw [wrapInt_of_inRange] <;> omega
    simp only [hsum, hsub, hdiv, hcs]
    have hmake : ¬ ((W : Int) < 0 ∨ (W : Int) * ((sliceHeaderSize : Nat) : Int) > ((maxAlloc : Nat) : Int)) := by
      simp only [maxAlloc, sliceHeaderSize]
      omega
    rw [if_neg hmake]
    have hc := ceilDiv_pos movies.length W h1 (by omega)
    have hm := ceilDiv_le_self movies.length (ceilDiv movies.length W) hc
    have := partitionLoop_chunksOf movies (ceilDiv movies.length W) hc (by omega) fuel 0
      (by omega) (by omega)
    simpa using this

theorem chunksOf_length (movies : List Movie) (c : Nat) :
    (chunksOf movies c).length = ceilDiv movies.length c := by
  simp [chunksOf]

theorem chunksOf_getElem (movies : List Movie) (c k : Nat) (hk : k < (chunksOf movies c).length) :
    (chunksOf movies c)[k] = chunkAt movies c k := by
  simp [chunksOf]

theorem chunkAt_length (movies : List Movie) (c k : Nat) :
    (chunkAt movies c k).length = min ((k + 1) * c) movies.length - k * c := by
  simp only [chunkAt, subSlice, List.length_take, List.length_drop]
  omega

theorem flatten_range_chunkAt (movies : List Movie) (c : Nat) :
    ∀ k : Nat, ((List.range k).map (chunkAt movies c)).flatten
      = movies.take (min (k * c) movies.length) := by
  intro k
  induction k with
  | zero => simp
  | succ k ih =>
    rw [List.range_succ, List.map_append, List.flatten_append, ih]
    simp only [List.map_cons, List.map_nil, List.flatten_cons, List.flatten_nil, List.append_nil,
      chunkAt, subSlice]
    have hle : k * c ≤ (k + 1) * c := by rw [Nat.add_mul]; omega
    by_cases h : k * c ≤ movies.length
    · rw [Nat.min_eq_left h]
      have : min ((k + 1) * c) movies.length
          = k * c + (min ((k + 1) * c) movies.length - k * c) := by omega
      conv_rhs => rw [this, List.take_add]
    · have h1 : min (k * c) movies.length = movies.length := by omega
      have h2 : min ((k + 1) * c) movies.length = movies.length := by omega
      rw [h1, h2, List.drop_eq_nil_of_le (by omega)]
      simp

theorem chunksOf_flatten (movies : List Movie) (c : Nat) (hc : 1 ≤ c) :
    (chunksOf movies c).flatten = movies := by
  unfold chunksOf
  rw [flatten_range_chunkAt]
  have : ¬ ceilDiv movies.length c * c < movies.length := by
    intro h
    have := (lt_ceilDiv_iff movies.length c _ hc).2 h
    omega
  rw [Nat.min_eq_right (by omega), List.take_length]

/-! ## Lemmas: filtering, fan-in and shuffle -/

theorem mapToSlice_eq (movies : GoMap Movie) : mapToSlice movies = movies.map Prod.snd := by
  unfold mapToSlice
  have h : ∀ (l : GoMap Movie) (acc : List Movie),
      l.foldl (fun slice entry => slice ++ [entry.2]) acc = acc ++ l.map Prod.snd := by
    intro l
    induction l with
    | nil => intro acc; simp
    | cons e l ih => intro acc; simp [ih]
  simpa using h movies []

theorem mapToSlice_length (movies : GoMap Movie) : (mapToSlice movies).length = movies.length := by
  simp [mapToSlice_eq]

theorem filterMovieSlice_eq (t : CaseTables) (movies : List Movie) (ratings : GoMap rating)
    (cfg : config) :
    filterMovieSlice t movies ratings cfg = movies.filter (matchesTitle t ratings cfg) := by
  unfold filterMovieSlice
  have h : ∀ (l acc : List Movie),
      l.foldl (fun results movie =>
          let r := lookupRating ratings movie.Id
          if shouldIncludeMovie t movie r.1 r.2 cfg then results ++ [movie] else results) acc
        = acc ++ l.filter (matchesTitle t ratings cfg) := by
    intro l
    induction l with
    | nil => intro acc; simp
    | cons m l ih =>
      intro acc
      simp only [List.foldl_cons, ih, List.filter_cons, matchesTitle]
      split_ifs <;> simp
  simpa using h movies []

theorem popAt_perm : ∀ (k : Nat) (pending : List (List Movie)) (m : Movie)
    (rest : List (List Movie)), popAt k pending = some (m, rest) →
    pending.flatten.Perm (m :: rest.flatten) := by
  intro k
  induction k with
  | zero =>
    intro pending m rest h
    match pending, h with
    | (x :: q) :: qs, h =>
      simp only [popAt, Option.some.injEq, Prod.mk.injEq] at h
      obtain ⟨rfl, rfl⟩ := h
      simp
  | succ k ih =>
    intro pending m rest h
    match pending, h with
    | q :: qs, h =>
      simp only [popAt] at h
      cases hp : popAt k qs with
      | none => simp [hp] at h
      | some r =>
        obtain ⟨m1, qs1⟩ := r
        simp only [hp, Option.some.injEq, Prod.mk.injEq] at h
        obtain ⟨rfl, rfl⟩ := h
        have := ih qs m1 qs1 hp
        simp only [List.flatten_cons]
        exact (List.Perm.append_left q this).trans List.perm_middle

theorem collectFromChannel_perm : ∀ (sched : List Nat) (pending : List (List Movie)),
    (collectFromChannel sched pending).Perm pending.flatten := by
  intro sched
  induction sched with
  | nil => intro pending; simp [collectFromChannel]
  | cons k sched ih =>
    intro pending
    unfold collectFromChannel
    cases hp : popAt k pending with
    | none => simpa using ih pending
    | some r =>
      obtain ⟨m, rest⟩ := r
      simp only
      exact ((ih rest).cons m).trans (popAt_perm k pending m rest hp).symm

theorem swapAt_perm (movies : List Movie) (i j : Nat) : (swapAt movies i j).Perm movies := by
  unfold swapAt
  cases hi : movies[i]? with
  | none => simp
  | some a =>
    cases hj : movies[j]? with
    | none => simp
    | some b =>
      simp only
      obtain ⟨hil, rfl⟩ := List.getElem?_eq_some_iff.1 hi
      obtain ⟨hjl, rfl⟩ := List.getElem?_eq_some_iff.1 hj
      rw [List.perm_iff_count]
      intro x
      rw [List.count_set _ _ _ _ (by simpa using hjl), List.count_set _ _ _ _ hil]
      have hc1 := List.count_pos_iff.2 (List.getElem_mem hil)
      have hc2 := List.count_pos_iff.2 (List.getElem_mem hjl)
      by_cases hij : i = j
      · subst hij
        simp only [List.getElem_set_self]
        by_cases hx : movies[i] = x
        · subst hx; simp
        · have : ¬ (movies[i] == x) = true := by simpa using hx
          simp [this]
      · rw [List.getElem_set_ne hij]
        by_cases hx : movies[i] = x <;> by_cases hy : movies[j] = x
        · subst hx
          simp [hy]
        · subst hx
          have : ¬ (movies[j] == movies[i]) = true := by simpa using hy
          simp [this]
        · subst hy
          have : ¬ (movies[i] == movies[j]) = true := by simpa using hx
          simp [this]
        · have h1 : ¬ (movies[i] == x) = true := by simpa using hx
          have h2 : ¬ (movies[j] == x) = true := by simpa using hy
          simp [h1, h2]

theorem randomizeResults_perm (rnd : (i : Nat) → Fin (i + 1)) (movies : List Movie) :
    (randomizeResults rnd movies).Perm movies := by
  unfold randomizeResults
  have h : ∀ (rounds : List Nat) (ms : List Movie),
      (rounds.foldl (fun ms i => swapAt ms i (rnd i)) ms).Perm ms := by
    intro rounds
    induction rounds with
    | nil => intro ms; simp
    | cons i rounds ih =>
      intro ms
      simp only [List.foldl_cons]
      exact (ih _).trans (swapAt_perm ms i (rnd i))
  exact h _ movies

theorem ceilDiv_zero (c : Nat) : ceilDiv 0 c = 0 := by
  unfold ceilDiv
  rcases Nat.eq_zero_or_pos c with h | h
  · subst h; rfl
  · rw [Nat.zero_add, Nat.div_eq_of_lt (by omega)]

theorem ceilDiv_eq_ceil (n w : Nat) (hw : 1 ≤ w) : ceilDiv n w = ⌈(n : ℚ) / (w : ℚ)⌉₊ := by
  have hwq : (0 : ℚ) < (w : ℚ) := by exact_mod_cast hw
  have key : ∀ k : Nat, k < ceilDiv n w ↔ k < ⌈(n : ℚ) / (w : ℚ)⌉₊ := by
    intro k
    rw [lt_ceilDiv_iff n w k hw, Nat.lt_ceil, lt_div_iff₀ hwq]
    exact_mod_cast Iff.rfl
  apply le_antisymm
  · by_contra h
    have := (key _).1 (not_le.1 h)
    omega
  · by_contra h
    have := (key _).2 (not_le.1 h)
    omega

theorem partitionSlice_panicked_of_cap (fuel : Nat) (movies : List Movie) (numWorkers : Int)
    (hne : movies ≠ []) (hcap : (maxAlloc : Int) < numWorkers * (sliceHeaderSize : Int)) :
    partitionSlice fuel movies numWorkers = .panicked := by
  unfold partitionSlice
  have h0 : ¬ movies.length = 0 := fun h => hne (List.length_eq_zero.1 h)
  rw [if_neg h0]
  by_cases hz : numWorkers = 0
  · rw [if_pos hz]
  · rw [if_neg hz]
    simp only
    rw [if_pos (Or.inr hcap)]

theorem ceilDiv_of_lt (n w : Nat) (hn : 1 ≤ n) (h : n < w) : ceilDiv n w = 1 := by
  unfold ceilDiv
  apply Nat.div_eq_of_lt_le <;> omega

theorem ceilDiv_one (n : Nat) : ceilDiv n 1 = n := by
  unfold ceilDiv
  simp

/-- A run of the loop that returns has cut the list into consecutive pieces,
whatever the chunk size: the bounds check of every slice expression forces
each piece to start where the one before it ended. -/
theorem partitionLoop_flatten (movies : List Movie) (c : Int) :
    ∀ (fuel : Nat) (i : Int) (acc chunks : List (List Movie)),
      0 ≤ i → acc.flatten = movies.take i.toNat →
      partitionLoop movies c fuel i acc = .ok chunks →
      chunks.flatten = movies := by
  intro fuel
  induction fuel with
  | zero =>
    intro i acc chunks _ _ h
    simp [partitionLoop] at h
  | succ f ih =>
    intro i acc chunks hi hacc h
    unfold partitionLoop at h
    by_cases hlt : i < (movies.length : Int)
    · rw [if_pos hlt] at h
      simp only at h
      by_cases hgt : wrapInt (i + c) > (movies.length : Int)
      · rw [if_pos hgt] at h
        by_cases hb : 0 ≤ i ∧ i ≤ (movies.length : Int)
        · rw [if_pos hb] at h
          refine ih _ _ chunks (by omega) ?_ h
          rw [List.flatten_append, hacc]
          simp only [List.flatten_cons, List.flatten_nil, List.append_nil, subSlice,
            Int.toNat_ofNat]
          rw [← List.take_add, List.take_of_length_le (by omega),
            List.take_of_length_le (by omega)]
        · rw [if_neg hb] at h
          exact Outcome.noConfusion h
      · rw [if_neg hgt] at h
        by_cases hb : 0 ≤ i ∧ i ≤ wrapInt (i + c)
        · rw [if_pos hb] at h
          refine ih _ _ chunks (by omega) ?_ h
          rw [List.flatten_append, hacc]
          simp only [List.flatten_cons, List.flatten_nil, List.append_nil, subSlice]
          rw [← List.take_add]
          congr 1
          omega
        · rw [if_neg hb] at h
          exact Outcome.noConfusion h
    · rw [if_neg hlt] at h
      simp only [Outcome.ok.injEq] at h
      subst h
      rw [hacc, List.take_of_length_le (by omega)]

/-- Whenever `partitionSlice` returns, the chunks concatenated are the list. -/
theorem partitionSlice_flatten (fuel : Nat) (movies : List Movie) (numWorkers : Int)
    (chunks : List (List Movie)) (h : partitionSlice fuel movies numWorkers = .ok chunks) :
    chunks.flatten = movies := by
  unfold partitionSlice at h
  by_cases h0 : movies.length = 0
  · rw [if_pos h0] at h
    simp only [Outcome.ok.injEq] at h
    subst h
    rw [List.length_eq_zero.1 h0]
    rfl
  · rw [if_neg h0] at h
    by_cases hz : numWorkers = 0
    · rw [if_pos hz] at h
      exact Outcome.noConfusion h
    · rw [if_neg hz] at h
      simp only at h
      split_ifs at h
      exact partitionLoop_flatten movies _ fuel 0 [] chunks (le_refl 0) (by simp) h

theorem Merge.shift (pending : List (List Movie)) (out : List Movie) (h : Merge pending out) :
    Merge ([] :: pending) out := by
  induction h with
  | done pending hall =>
    refine Merge.done _ ?_
    intro q hq
    rcases List.mem_cons.1 hq with rfl | hq
    · rfl
    · exact hall q hq
  | send k pending rest m out hp _ ih =>
    refine Merge.send (k + 1) _ ([] :: rest) m out ?_ ih
    simp [popAt, hp]

theorem Merge.flatten : ∀ pending : List (List Movie), Merge pending pending.flatten := by
  intro pending
  induction pending with
  | nil => exact Merge.done [] (fun q hq => absurd hq (List.not_mem_nil _))
  | cons q qs ih =>
    induction q with
    | nil => simpa using Merge.shift qs _ ih
    | cons m q ihq =>
      rw [List.flatten_cons, List.cons_append]
      exact Merge.send 0 _ (q :: qs) m _ rfl (by simpa using ihq)

/-- The schedules of `collectFromChannel` produce the merges of the pending
sends, all of them and nothing else. -/
theorem merge_iff_collectFromChannel (pending : List (List Movie)) (out : List Movie) :
    Merge pending out ↔ ∃ sched, collectFromChannel sched pending = out := by
  constructor
  · intro h
    induction h with
    | done pending hall =>
      refine ⟨[], ?_⟩
      simp only [collectFromChannel, List.flatten_eq_nil_iff]
      exact hall
    | send k pending rest m out hp _ ih =>
      obtain ⟨sched, hs⟩ := ih
      refine ⟨k :: sched, ?_⟩
      simp only [collectFromChannel, hp, hs]
  · rintro ⟨sched, rfl⟩
    induction sched generalizing pending with
    | nil => exact Merge.flatten pending
    | cons k sched ih =>
      unfold collectFromChannel
      cases hp : popAt k pending with
      | none => exact ih pending
      | some r =>
        obtain ⟨m, rest⟩ := r
        exact Merge.send k pending rest m _ hp (ih rest)

/-! ## Lemmas: worker count, predicate, genres -/

theorem numWorkers_unset (numCPU : Int) : numWorkers numCPU [] = numCPU := by
  simp [numWorkers]

theorem numWorkers_of_Atoi_none (numCPU : Int) (altWorkers : GoString)
    (h : Atoi altWorkers = none) : numWorkers numCPU altWorkers = numCPU := by
  unfold numWorkers
  split_ifs <;> simp [h]

theorem numWorkers_of_Atoi_some (numCPU num : Int) (altWorkers : GoString)
    (hne : altWorkers ≠ []) (h : Atoi altWorkers = some num) :
    numWorkers numCPU altWorkers = num := by
  unfold numWorkers
  rw [if_pos hne, h]

theorem lookup_append_entry {α : Type} (m : GoMap α) (k g : GoString) (v : α) :
    List.lookup k (m ++ [(g, v)])
      = match List.lookup k m with
        | some x => some x
        | none => if k = g then some v else none := by
  induction m with
  | nil =>
    by_cases h : k = g
    · subst h; simp [List.lookup]
    · have : (k == g) = false := by simpa using h
      simp [List.lookup, this, h]
  | cons e m ih =>
    obtain ⟨a, b⟩ := e
    rw [List.cons_append, List.lookup_cons, List.lookup_cons]
    by_cases h : k = a
    · subst h; simp
    · have : (k == a) = false := by simpa using h
      simp only [this]
      exact ih

theorem lookup_map_replace {α : Type} (m : GoMap α) (k g : GoString) (v : α) :
    List.lookup k (m.map fun e => if e.1 = g then (g, v) else e)
      = if k = g then (List.lookup g m).map (fun _ => v) else List.lookup k m := by
  induction m with
  | nil => simp [List.lookup]
  | cons e m ih =>
    obtain ⟨a, b⟩ := e
    rw [List.map_cons]
    dsimp only
    by_cases hag : a = g
    · subst hag
      rw [if_pos rfl, List.lookup_cons, List.lookup_cons, ih]
      by_cases hk : k = a
      · subst hk; simp
      · have : (k == a) = false := by simpa using hk
        simp only [this, if_neg hk]
        rw [List.lookup_cons, this]
    · rw [if_neg hag, List.lookup_cons, ih]
      by_cases hk : k = g
      · subst hk
        have h1 : (k == a) = false := by simpa using fun h : k = a => hag h.symm
        simp only [h1, if_true]
        rw [List.lookup_cons, h1]
      · rw [if_neg hk, if_neg hk, List.lookup_cons]

theorem getBool_set_true (m : GoMap Bool) (g k : GoString) :
    (m.set g true).getBool k = (m.getBool k || decide (k = g)) := by
  unfold GoMap.set GoMap.getBool GoMap.get
  by_cases hg : (List.lookup g m).isSome = true
  · rw [if_pos hg, lookup_map_replace]
    by_cases hk : k = g
    · subst hk
      obtain ⟨x, hx⟩ := Option.isSome_iff_exists.1 hg
      simp [hx]
    · simp [hk]
  · rw [if_neg hg, lookup_append_entry]
    have hnone : List.lookup g m = none := by
      cases h : List.lookup g m with
      | none => rfl
      | some x => simp [h] at hg
    by_cases hk : k = g
    · subst hk; simp [hnone]
    · cases h : List.lookup k m <;> simp [hk]

theorem genreSet_getBool (movieGenres : List GoString) (k : GoString) :
    (movieGenres.foldl (fun (set : GoMap Bool) g => set.set g true) []).getBool k = true
      ↔ k ∈ movieGenres := by
  have h : ∀ (l : List GoString) (acc : GoMap Bool),
      (l.foldl (fun (set : GoMap Bool) g => set.set g true) acc).getBool k = true
        ↔ acc.getBool k = true ∨ k ∈ l := by
    intro l
    induction l with
    | nil => intro acc; simp
    | cons g l ih =>
      intro acc
      rw [List.foldl_cons, ih, getBool_set_true]
      simp only [Bool.or_eq_true, decide_eq_true_eq, List.mem_cons]
      tauto
  rw [h]
  simp [GoMap.getBool, GoMap.get, List.lookup]

theorem hasGenreLoop_iff (t : CaseTables) (genreSet : GoMap Bool) (filterGenres : List GoString) :
    hasGenreLoop t genreSet filterGenres = true
      ↔ ∃ g ∈ filterGenres, genreSet.getBool (normalizeGenre t g) = true := by
  induction filterGenres with
  | nil => simp [hasGenreLoop]
  | cons g gs ih =>
    unfold hasGenreLoop
    by_cases h : genreSet.getBool (normalizeGenre t g) = true
    · simp [h]
    · simp [h, ih]

theorem hasGenre_iff (t : CaseTables) (movieGenres filterGenres : List GoString) :
    hasGenre t movieGenres filterGenres = true
      ↔ ∃ g ∈ filterGenres, normalizeGenre t g ∈ movieGenres := by
  unfold hasGenre
  simp only [hasGenreLoop_iff, genreSet_getBool]

theorem ToLower_nil (t : CaseTables) : ToLower t [] = [] := by
  simp [ToLower, isASCII]

theorem ToLower_ne_nil (t : CaseTables) (s : GoString) (h : s ≠ []) : ToLower t s ≠ [] := by
  unfold ToLower
  split_ifs
  · simpa using h
  · exact t.mapLower_ne_nil s h

theorem normalizeGenre_eq (t : CaseTables) (s : GoString) :
    normalizeGenre t s
      = match ToLower t s with
        | [] => []
        | b :: rest => if b < 128 then upperByte b :: rest else ToUpper t (stringOfByte b) ++ rest := by
  unfold normalizeGenre
  by_cases hs : s = []
  · subst hs
    simp [ToLower_nil]
  · rw [if_neg hs]
    cases h : ToLower t s with
    | nil => rfl
    | cons b rest =>
      simp only
      by_cases hb : b < 128
      · rw [if_pos hb]
        simp [ToUpper, stringOfByte, hb, isASCII]
      · rw [if_neg hb]

theorem shouldIncludeMovie_false_of_absent (t : CaseTables) (movie : Movie) (r : rating)
    (hasRating : Bool) (cfg : config)
    (h : movie.StartYear = none ∨ movie.runtimeMinutes = none ∨ hasRating = false) :
    shouldIncludeMovie t movie r hasRating cfg = false := by
  unfold shouldIncludeMovie passesYearFilter passesRuntimeFilter passesRatingFilter
  rcases h with h | h | h <;> simp [h]

theorem lookupRating_snd (ratings : GoMap rating) (id : GoString) :
    (lookupRating ratings id).2 = (ratings.get id).isSome := by
  unfold lookupRating
  cases ratings.get id <;> rfl

theorem normalizeGenre_of_ascii_head (t : CaseTables) (s : GoString) (b : Nat) (rest : GoString)
    (hl : ToLower t s = b :: rest) (hb : b < 128) :
    normalizeGenre t s = upperByte b :: rest := by
  rw [normalizeGenre_eq, hl]
  simp only [if_pos hb]

theorem normalizeGenre_e_acute (t : CaseTables) :
    normalizeGenre t (bytes "é") = [195, 131, 169] := by
  have h : bytes "é" = [195, 169] := by decide
  rw [h, normalizeGenre_eq]
  have hl : ToLower t [195, 169] = [195, 169] := by
    simp [ToLower, isASCII, t.mapLower_e_acute]
  rw [hl]
  simp [ToUpper, stringOfByte, isASCII, t.mapUpper_A_tilde]

theorem normalizeGenre_ACTION (t : CaseTables) :
    normalizeGenre t (bytes "ACTION") = bytes "Action" := by
  have hl : ToLower t (bytes "ACTION") = 97 :: [99, 116, 105, 111, 110] := by
    unfold ToLower
    rw [if_pos (by decide)]
    decide
  rw [normalizeGenre_of_ascii_head t _ _ _ hl (by decide)]
  decide

theorem normalizeGenre_drama (t : CaseTables) :
    normalizeGenre t (bytes "drama") = bytes "Drama" := by
  have hl : ToLower t (bytes "drama") = 100 :: [114, 97, 109, 97] := by
    unfold ToLower
    rw [if_pos (by decide)]
    decide
  rw [normalizeGenre_of_ascii_head t _ _ _ hl (by decide)]
  decide

theorem normalizeGenre_action (t : CaseTables) :
    normalizeGenre t (bytes "action") = bytes "Action" := by
  have hl : ToLower t (bytes "action") = 97 :: [99, 116, 105, 111, 110] := by
    unfold ToLower
    rw [if_pos (by decide)]
    decide
  rw [normalizeGenre_of_ascii_head t _ _ _ hl (by decide)]
  decide

/-! ## Lemmas: the shuffle as a bijection -/

theorem swapAt_length (l : List Movie) (i j : Nat) : (swapAt l i j).length = l.length := by
  unfold swapAt
  cases l[i]? <;> cases l[j]? <;> simp

theorem swapAt_getElem? (l : List Movie) (i j p : Nat) (hi : i < l.length) (hj : j < l.length) :
    (swapAt l i j)[p]? = if p = j then l[i]? else if p = i then l[j]? else l[p]? := by
  unfold swapAt
  rw [List.getElem?_eq_getElem hi, List.getElem?_eq_getElem hj]
  simp only
  rw [List.getElem?_set, List.getElem?_set]
  by_cases h1 : j = p
  · subst h1
    simp [hj]
  · have h1' : ¬ p = j := fun h => h1 h.symm
    rw [if_neg h1, if_neg h1']
    by_cases h2 : i = p
    · subst h2
      simp [hi]
    · have h2' : ¬ p = i := fun h => h2 h.symm
      rw [if_neg h2, if_neg h2']

theorem swapAt_swapAt (l : List Movie) (i j : Nat) (hi : i < l.length) (hj : j < l.length) :
    swapAt (swapAt l i j) i j = l := by
  apply List.ext_getElem?
  intro p
  have hi2 : i < (swapAt l i j).length := by rw [swapAt_length]; exact hi
  have hj2 : j < (swapAt l i j).length := by rw [swapAt_length]; exact hj
  rw [swapAt_getElem? _ i j p hi2 hj2, swapAt_getElem? l i j i hi hj,
    swapAt_getElem? l i j j hi hj, swapAt_getElem? l i j p hi hj]
  by_cases h1 : p = j
  · subst h1
    by_cases h2 : i = p
    · subst h2; simp
    · simp [h2]
  · by_cases h2 : p = i
    · subst h2
      simp [h1]
    · simp [h1, h2]

theorem swapAt_of_length_le (l : List Movie) (i j : Nat) (hi : l.length ≤ i) :
    swapAt l i j = l := by
  unfold swapAt
  rw [List.getElem?_eq_none hi]

theorem shuffleSteps_zero (rnd : (i : Nat) → Fin (i + 1)) (l : List Movie) :
    shuffleSteps rnd 0 l = l := rfl

theorem shuffleSteps_succ (rnd : (i : Nat) → Fin (i + 1)) (k : Nat) (l : List Movie) :
    shuffleSteps rnd (k + 1) l = swapAt (shuffleSteps rnd k l) k (rnd k) := by
  unfold shuffleSteps
  rw [List.range_succ, List.foldl_append]
  rfl

theorem randomizeResults_eq_shuffleSteps (rnd : (i : Nat) → Fin (i + 1)) (l : List Movie) :
    randomizeResults rnd l = shuffleSteps rnd l.length l := rfl

theorem shuffleSteps_perm (rnd : (i : Nat) → Fin (i + 1)) (k : Nat) (l : List Movie) :
    (shuffleSteps rnd k l).Perm l := by
  induction k with
  | zero => exact List.Perm.refl _
  | succ k ih =>
    rw [shuffleSteps_succ]
    exact (swapAt_perm _ _ _).trans ih

theorem shuffleSteps_length (rnd : (i : Nat) → Fin (i + 1)) (k : Nat) (l : List Movie) :
    (shuffleSteps rnd k l).length = l.length :=
  (shuffleSteps_perm rnd k l).length_eq

/-- The first `k` rounds leave the positions from `k` on as they were. -/
theorem shuffleSteps_getElem?_of_le (rnd : (i : Nat) → Fin (i + 1)) (l : List Movie) :
    ∀ (k p : Nat), k ≤ p → (shuffleSteps rnd k l)[p]? = l[p]? := by
  intro k
  induction k with
  | zero => intro p _; rfl
  | succ k ih =>
    intro p hp
    rw [shuffleSteps_succ]
    by_cases hk : k < l.length
    · have hk2 : k < (shuffleSteps rnd k l).length := by rw [shuffleSteps_length]; exact hk
      have hj := (rnd k).isLt
      rw [swapAt_getElem? _ k (rnd k) p hk2 (by omega), if_neg (by omega), if_neg (by omega)]
      exact ih p (by omega)
    · rw [swapAt_of_length_le _ _ _ (by rw [shuffleSteps_length]; omega)]
      exact ih p (by omega)

theorem shuffleSteps_congr (rnd1 rnd2 : (i : Nat) → Fin (i + 1)) (l : List Movie) :
    ∀ k : Nat, (∀ i, i < k → rnd1 i = rnd2 i) → shuffleSteps rnd1 k l = shuffleSteps rnd2 k l := by
  intro k
  induction k with
  | zero => intro _; rfl
  | succ k ih =>
    intro h
    rw [shuffleSteps_succ, shuffleSteps_succ, ih (fun i hi => h i (by omega)), h k (by omega)]

theorem shuffleSteps_injective (l : List Movie) (hnd : l.Nodup)
    (rnd1 rnd2 : (i : Nat) → Fin (i + 1)) :
    ∀ k : Nat, k ≤ l.length → shuffleSteps rnd1 k l = shuffleSteps rnd2 k l →
      ∀ i, i < k → rnd1 i = rnd2 i := by
  intro k
  induction k with
  | zero => intro _ _ i hi; omega
  | succ k ih =>
    intro hk heq i hi
    rw [shuffleSteps_succ, shuffleSteps_succ] at heq
    have hkl : k < l.length := by omega
    have h1 : k < (shuffleSteps rnd1 k l).length := by rw [shuffleSteps_length]; exact hkl
    have h2 : k < (shuffleSteps rnd2 k l).length := by rw [shuffleSteps_length]; exact hkl
    have hj1 := (rnd1 k).isLt
    have hj2 := (rnd2 k).isLt
    have e1 : (swapAt (shuffleSteps rnd1 k l) k (rnd1 k))[(rnd1 k : Nat)]? = l[k]? := by
      rw [swapAt_getElem? _ k (rnd1 k) _ h1 (by omega), if_pos rfl]
      exact shuffleSteps_getElem?_of_le rnd1 l k k (le_refl k)
    have e2 : (swapAt (shuffleSteps rnd2 k l) k (rnd2 k))[(rnd2 k : Nat)]? = l[k]? := by
      rw [swapAt_getElem? _ k (rnd2 k) _ h2 (by omega), if_pos rfl]
      exact shuffleSteps_getElem?_of_le rnd2 l k k (le_refl k)
    rw [← heq] at e2
    have hS : (swapAt (shuffleSteps rnd1 k l) k (rnd1 k)).Nodup :=
      ((swapAt_perm _ _ _).trans (shuffleSteps_perm rnd1 k l)).nodup_iff.2 hnd
    have hlen : (swapAt (shuffleSteps rnd1 k l) k (rnd1 k)).length = l.length := by
      rw [swapAt_length, shuffleSteps_length]
    have hjeq : (rnd1 k : Nat) = (rnd2 k : Nat) :=
      List.getElem?_inj (by rw [hlen]; omega) hS (e1.trans e2.symm)
    have hk_eq : rnd1 k = rnd2 k := Fin.ext hjeq
    by_cases hik : i = k
    · subst hik; exact hk_eq
    · rw [hk_eq] at heq
      have hA : shuffleSteps rnd1 k l = shuffleSteps rnd2 k l := by
        have := congrArg (fun s => swapAt s k (rnd2 k)) heq
        simp only at this
        rwa [swapAt_swapAt _ _ _ h1 (by omega), swapAt_swapAt _ _ _ h2 (by omega)] at this
      exact ih (by omega) hA i (by omega)

theorem shuffleSteps_surjective (l : List Movie) (hnd : l.Nodup) :
    ∀ (k : Nat), k ≤ l.length → ∀ target : List Movie, target.Perm l →
      (∀ p, k ≤ p → target[p]? = l[p]?) →
      ∃ rnd : (i : Nat) → Fin (i + 1), shuffleSteps rnd k l = target := by
  intro k
  induction k with
  | zero =>
    intro _ target _ hfix
    exact ⟨fun _ => 0, (List.ext_getElem? fun p => hfix p (Nat.zero_le p)).symm⟩
  | succ k ih =>
    intro hk target hperm hfix
    have hkl : k < l.length := by omega
    have hlen : target.length = l.length := hperm.length_eq
    have hmem : l[k] ∈ target := hperm.mem_iff.2 (List.getElem_mem hkl)
    obtain ⟨j, hj⟩ := List.mem_iff_getElem?.1 hmem
    have hjlt : j < target.length := by
      by_contra hge
      rw [List.getElem?_eq_none (by omega)] at hj
      exact Option.noConfusion hj
    have hjk : j ≤ k := by
      by_contra hgt
      have h1 : l[j]? = l[k]? := by
        rw [← hfix j (by omega), hj, List.getElem?_eq_getElem hkl]
      have := List.getElem?_inj (by omega) hnd h1
      omega
    have hkt : k < target.length := by omega
    have hfix2 : ∀ p, k ≤ p → (swapAt target k j)[p]? = l[p]? := by
      intro p hp
      rw [swapAt_getElem? target k j p hkt hjlt]
      by_cases hpj : p = j
      · rw [if_pos hpj]
        have hjk2 : j = k := by omega
        have hpk : p = k := by omega
        rw [hpk, ← hjk2, hj, hjk2]
        exact (List.getElem?_eq_getElem hkl).symm
      · rw [if_neg hpj]
        by_cases hpk : p = k
        · rw [if_pos hpk, hj, hpk]
          exact (List.getElem?_eq_getElem hkl).symm
        · rw [if_neg hpk]
          exact hfix p (by omega)
    obtain ⟨rnd0, h0⟩ := ih (by omega) (swapAt target k j) ((swapAt_perm _ _ _).trans hperm) hfix2
    refine ⟨Function.update rnd0 k ⟨j, by omega⟩, ?_⟩
    rw [shuffleSteps_succ, shuffleSteps_congr (Function.update rnd0 k ⟨j, by omega⟩) rnd0 l k
      (fun i hi => Function.update_noteq (by omega) _ _), h0, Function.update_same]
    exact swapAt_swapAt target k j hkt hjlt

theorem card_drawVectors (n : Nat) :
    Fintype.card ((i : Fin n) → Fin (i.val + 1)) = n.factorial := by
  rw [Fintype.card_pi]
  simp only [Fintype.card_fin]
  rw [Fin.prod_univ_eq_prod_range (fun i => i + 1) n, Finset.prod_range_add_one_eq_factorial]

/-! ## Lemmas: case folding, the predicate, widening -/

theorem lowerByte_not_upper (c : Nat) : ¬ (65 ≤ lowerByte c ∧ lowerByte c ≤ 90) := by
  unfold lowerByte
  split_ifs <;> omega

theorem lowerByte_lowerByte (c : Nat) : lowerByte (lowerByte c) = lowerByte c := by
  have h := lowerByte_not_upper c
  generalize lowerByte c = b at h ⊢
  unfold lowerByte
  rw [if_neg h]

theorem lowerByte_upperByte_lowerByte (c : Nat) :
    lowerByte (upperByte (lowerByte c)) = lowerByte c := by
  have h := lowerByte_not_upper c
  generalize lowerByte c = b at h
  unfold upperByte
  split_ifs with h1
  · unfold lowerByte
    rw [if_pos (by omega)]
    omega
  · unfold lowerByte
    rw [if_neg h]

theorem lowerByte_lt (c : Nat) (h : c < 128) : lowerByte c < 128 := by
  unfold lowerByte
  split_ifs <;> omega

theorem le_lowerByte (c : Nat) : c ≤ lowerByte c := by
  unfold lowerByte
  split_ifs <;> omega

theorem isASCII_iff (s : GoString) : isASCII s = true ↔ ∀ c ∈ s, c < 128 := by
  simp [isASCII]

theorem isASCII_map_lowerByte (s : GoString) :
    isASCII (s.map lowerByte) = true ↔ isASCII s = true := by
  rw [isASCII_iff, isASCII_iff]
  constructor
  · intro h c hc
    have := h (lowerByte c) (List.mem_map_of_mem _ hc)
    have := le_lowerByte c
    omega
  · intro h c hc
    obtain ⟨x, hx, rfl⟩ := List.mem_map.1 hc
    exact lowerByte_lt x (h x hx)

/-- On an ASCII string `normalizeGenre` lowercases every letter and then
uppercases the first byte. -/
theorem normalizeGenre_of_isASCII (t : CaseTables) (s : GoString) (hs : isASCII s = true) :
    normalizeGenre t s = capitalize (s.map lowerByte) := by
  rw [normalizeGenre_eq]
  have hl : ToLower t s = s.map lowerByte := by
    unfold ToLower
    rw [if_pos hs]
  rw [hl]
  cases hm : s.map lowerByte with
  | nil => rfl
  | cons b rest =>
    have hb : b < 128 := by
      have h1 := (isASCII_map_lowerByte s).2 hs
      rw [hm, isASCII_iff] at h1
      exact h1 b (List.mem_cons_self _ _)
    simp only [if_pos hb]
    rfl

theorem map_lowerByte_capitalize_map (s : GoString) :
    (capitalize (s.map lowerByte)).map lowerByte = s.map lowerByte := by
  cases s with
  | nil => rfl
  | cons c rest =>
    simp only [List.map_cons, capitalize, lowerByte_upperByte_lowerByte, List.map_map]
    congr 1
    apply List.map_congr_left
    intro x _
    exact lowerByte_lowerByte x

/-- Against a title genre that `normalizeGenre` leaves as it is, an ASCII
request matches exactly when the two are equal up to the case of letters. -/
theorem normalizeGenre_eq_iff_equalFold (t : CaseTables) (g tg : GoString)
    (hg : isASCII g = true) (htg : normalizeGenre t tg = tg) :
    normalizeGenre t g = tg ↔ equalFold g tg = true := by
  unfold equalFold
  rw [decide_eq_true_eq]
  constructor
  · intro h
    rw [← h, normalizeGenre_of_isASCII t g hg, map_lowerByte_capitalize_map]
  · intro h
    have htg2 : isASCII tg = true := by
      rw [← isASCII_map_lowerByte, ← h, isASCII_map_lowerByte]
      exact hg
    rw [normalizeGenre_of_isASCII t g hg, h, ← normalizeGenre_of_isASCII t tg htg2, htg]

theorem passesGenreFilter_true_iff (t : CaseTables) (movie : Movie) (cfg : config) :
    passesGenreFilter t movie cfg = true
      ↔ cfg.genres = [] ∨ ∃ g ∈ cfg.genres, normalizeGenre t g ∈ movie.Genres := by
  unfold passesGenreFilter
  by_cases h : cfg.genres = []
  · simp [h]
  · have h2 : ¬ cfg.genres.length = 0 := fun hl => h (List.length_eq_zero.1 hl)
    rw [if_neg h2, hasGenre_iff]
    simp [h]

theorem shouldIncludeMovie_true_iff (t : CaseTables) (movie : Movie) (r : rating)
    (hasRating : Bool) (cfg : config) :
    shouldIncludeMovie t movie r hasRating cfg = true ↔
      (cfg.excludeAdult = false ∨ movie.isAdult = false) ∧
      (∃ year, movie.StartYear = some year ∧ cfg.minYear ≤ year ∧ year ≤ cfg.maxYear) ∧
      (∃ runtime, movie.runtimeMinutes = some runtime ∧
        cfg.minRuntime ≤ runtime ∧ runtime ≤ cfg.maxRuntime) ∧
      (hasRating = true ∧ r.AverageRating.ge cfg.minRating = true ∧
        cfg.minVotes ≤ r.NumVotes ∧ r.NumVotes ≤ cfg.maxVotes) ∧
      passesGenreFilter t movie cfg = true := by
  unfold shouldIncludeMovie passesAdultFilter passesYearFilter passesRuntimeFilter
    passesRatingFilter
  cases hy : movie.StartYear <;> cases hr : movie.runtimeMinutes <;> cases hasRating <;>
    simp [and_assoc]

theorem float64_le_trans (a b c : Float64) (h1 : Float64.le a b = true)
    (h2 : Float64.le b c = true) : Float64.le a c = true := by
  cases a <;> cases b <;> cases c <;> simp_all [Float64.le]
  exact le_trans h1 h2

/-- Whether the loop of `partitionSlice` returns depends on the length of the
list only, not on its elements. -/
theorem partitionLoop_ok_of_length (l1 l2 : List Movie) (hlen : l2.length = l1.length) (c : Int) :
    ∀ (fuel : Nat) (i : Int) (acc1 acc2 : List (List Movie)),
      (∃ chunks, partitionLoop l1 c fuel i acc1 = .ok chunks) →
      ∃ chunks, partitionLoop l2 c fuel i acc2 = .ok chunks := by
  intro fuel
  induction fuel with
  | zero =>
    intro i acc1 acc2 h
    obtain ⟨chunks, h⟩ := h
    simp [partitionLoop] at h
  | succ f ih =>
    intro i acc1 acc2 h
    obtain ⟨chunks, h⟩ := h
    unfold partitionLoop at h ⊢
    rw [hlen]
    by_cases hlt : i < (l1.length : Int)
    · rw [if_pos hlt] at h ⊢
      simp only at h ⊢
      by_cases hb : 0 ≤ i ∧ i ≤ (if wrapInt (i + c) > (l1.length : Int) then (l1.length : Int)
          else wrapInt (i + c))
      · rw [if_pos hb] at h ⊢
        exact ih _ _ _ ⟨chunks, h⟩
      · rw [if_neg hb] at h
        exact Outcome.noConfusion h
    · rw [if_neg hlt]
      exact ⟨acc2, rfl⟩

theorem partitionSlice_ok_of_length (fuel : Nat) (l1 l2 : List Movie)
    (hlen : l2.length = l1.length) (numWorkers : Int)
    (h : ∃ chunks, partitionSlice fuel l1 numWorkers = .ok chunks) :
    ∃ chunks, partitionSlice fuel l2 numWorkers = .ok chunks := by
  obtain ⟨chunks, h⟩ := h
  unfold partitionSlice at h ⊢
  rw [hlen]
  by_cases h0 : l1.length = 0
  · rw [if_pos h0]
    exact ⟨[], rfl⟩
  · rw [if_neg h0] at h ⊢
    by_cases hz : numWorkers = 0
    · rw [if_pos hz] at h
      exact Outcome.noConfusion h
    · rw [if_neg hz] at h ⊢
      simp only at h ⊢
      by_cases hm : numWorkers < 0 ∨ numWorkers * (sliceHeaderSize : Int) > (maxAlloc : Int)
      · rw [if_pos hm] at h
        exact Outcome.noConfusion h
      · rw [if_neg hm] at h ⊢
        exact partitionLoop_ok_of_length l1 l2 hlen _ fuel 0 [] [] ⟨chunks, h⟩

theorem FilterMovies_ok_iff_partition (t : CaseTables) (fuel : Nat) (numCPU : Int)
    (altWorkers : GoString) (sched : List Nat) (rnd : (i : Nat) → Fin (i + 1))
    (movies : GoMap Movie) (ratings : GoMap rating) (cfg : config) :
    (∃ results, FilterMovies t fuel numCPU altWorkers sched rnd movies ratings cfg = .ok results)
      ↔ ∃ chunks, partitionSlice fuel (mapToSlice movies) (numWorkers numCPU altWorkers)
          = .ok chunks := by
  unfold FilterMovies
  cases hp : partitionSlice fuel (mapToSlice movies) (numWorkers numCPU altWorkers) with
  | ok chunks => simp [hp]
  | panicked => simp [hp]
  | outOfFuel => simp [hp]

/-- Within the bounds, the chunk size that `partitionSlice` computes in
64-bit arithmetic is `ceil(n / w)`. -/
theorem chunkSize_eq (n W : Nat) (h1 : 1 ≤ W) (hWN : W ≤ n + 2)
    (hN : n * movieSize ≤ maxAlloc) :
    wrapInt (Int.tdiv (wrapInt (wrapInt ((n : Int) + (W : Int)) - 1)) (W : Int))
      = ((ceilDiv n W : Nat) : Int) := by
  simp only [maxAlloc, movieSize] at hN
  have hsum : wrapInt ((n : Int) + (W : Int)) = ((n + W : Nat) : Int) := by
    rw [wrapInt_of_inRange] <;> omega
  have hsub : wrapInt (((n + W : Nat) : Int) - 1) = ((n + W - 1 : Nat) : Int) := by
    rw [wrapInt_of_inRange] <;> omega
  have hdiv : Int.tdiv ((n + W - 1 : Nat) : Int) (W : Int) = ((ceilDiv n W : Nat) : Int) := rfl
  have hcle := ceilDiv_le_self n W h1
  rw [hsum, hsub, hdiv, wrapInt_of_inRange] <;> omega

theorem passesGenreFilter_Action (t : CaseTables) (movie : Movie) :
    passesGenreFilter t movie combinedConfig = decide (bytes "Action" ∈ movie.Genres) := by
  have hn : normalizeGenre t (bytes "Action") = bytes "Action" := by
    rw [normalizeGenre_of_isASCII t _ (by decide)]
    decide
  rw [Bool.eq_iff_iff, passesGenreFilter_true_iff, decide_eq_true_eq]
  constructor
  · rintro (h | ⟨g, hg, hm⟩)
    · exact absurd h (by decide)
    · have : g = bytes "Action" := by simpa [combinedConfig] using hg
      subst this
      rw [hn] at hm
      exact hm
  · intro h
    exact Or.inr ⟨bytes "Action", by simp [combinedConfig], by rw [hn]; exact h⟩

/-- The titles of the fixture that pass the criteria of
`TestFilterMovies_CombinedFilters`: those with the ids 1, 3 and 5. -/
theorem testMovies_filter_combined (t : CaseTables) :
    ((mapToSlice testMovies).filter (matchesTitle t testRatings combinedConfig)).map Movie.Id
      = [bytes "1", bytes "3", bytes "5"] := by
  have hyes : ∀ (m : Movie) (q : ℚ) (votes year runtime : Int),
      lookupRating testRatings m.Id = (createTestRating (.fin q) votes, true) →
      m.isAdult = false → m.StartYear = some year → m.runtimeMinutes = some runtime →
      (2019 ≤ year ∧ year ≤ 2022) → (100 ≤ runtime ∧ runtime ≤ 180) →
      (8 : ℚ) ≤ q → (10000 ≤ votes ∧ votes ≤ 9999999) → bytes "Action" ∈ m.Genres →
      matchesTitle t testRatings combinedConfig m = true := by
    intro m q votes year runtime hl had hy hr hyb hrb hq hv hg
    unfold matchesTitle
    rw [hl, shouldIncludeMovie_true_iff]
    refine ⟨Or.inr had, ⟨year, hy, hyb.1, hyb.2⟩, ⟨runtime, hr, hrb.1, hrb.2⟩,
      ⟨rfl, ?_, hv.1, hv.2⟩, ?_⟩
    · simpa [createTestRating, combinedConfig, Float64.ge, Float64.le] using hq
    · rw [passesGenreFilter_Action, decide_eq_true_eq]
      exact hg
  have hno : ∀ (m : Movie),
      (m.isAdult = true ∨
        (∀ year, m.StartYear = some year → ¬ (2019 ≤ year ∧ year ≤ 2022)) ∨
        (∀ runtime, m.runtimeMinutes = some runtime → ¬ (100 ≤ runtime ∧ runtime ≤ 180))) →
      matchesTitle t testRatings combinedConfig m = false := by
    intro m h
    rw [Bool.eq_false_iff]
    intro hm
    unfold matchesTitle at hm
    rw [shouldIncludeMovie_true_iff] at hm
    obtain ⟨had, ⟨year, hy, hy1, hy2⟩, ⟨runtime, hr, hr1, hr2⟩, _, _⟩ := hm
    rcases h with h | h | h
    · rcases had with had | had
      · exact absurd had (by decide)
      · rw [h] at had
        exact Bool.noConfusion had
    · exact h year hy ⟨hy1, hy2⟩
    · exact h runtime hr ⟨hr1, hr2⟩
  have e1 : matchesTitle t testRatings combinedConfig
      (createTestMovie (bytes "1") (bytes "Action Hero") false 2020 120 [bytes "Action"])
      = true :=
    hyes _ (17 / 2) 10000 2020 120 rfl rfl rfl rfl (by decide) (by decide) (by norm_num)
      (by decide) (by decide)
  have e2 : matchesTitle t testRatings combinedConfig
      (createTestMovie (bytes "2") (bytes "Adult Drama") true 2019 90 [bytes "Drama"])
      = false := hno _ (Or.inl rfl)
  have e3 : matchesTitle t testRatings combinedConfig
      (createTestMovie (bytes "3") (bytes "Thriller Night") false 2021 150
        [bytes "Action", bytes "Thriller"]) = true :=
    hyes _ 9 15000 2021 150 rfl rfl rfl rfl (by decide) (by decide) (by norm_num)
      (by decide) (by decide)
  have e4 : matchesTitle t testRatings combinedConfig
      (createTestMovie (bytes "4") (bytes "Comedy Show") false 2018 60 [bytes "Comedy"])
      = false :=
    hno _ (Or.inr (Or.inl (fun year hy => by
      have h := (Option.some.inj hy).symm
      subst h
      decide)))
  have e5 : matchesTitle t testRatings combinedConfig
      (createTestMovie (bytes "5") (bytes "Action Pack") false 2022 130 [bytes "Action"])
      = true :=
    hyes _ 8 12000 2022 130 rfl rfl rfl rfl (by decide) (by decide) (by norm_num)
      (by decide) (by decide)
  have e6 : matchesTitle t testRatings combinedConfig
      (createTestMovie (bytes "6") (bytes "Old Classic") false 2005 100 [bytes "Drama"])
      = false :=
    hno _ (Or.inr (Or.inl (fun year hy => by
      have h := (Option.some.inj hy).symm
      subst h
      decide)))
  have e7 : matchesTitle t testRatings combinedConfig
      (createTestMovie (bytes "7") (bytes "Long Epic") false 2020 200 [bytes "Drama"])
      = false :=
    hno _ (Or.inr (Or.inr (fun runtime hr => by
      have h := (Option.some.inj hr).symm
      subst h
      decide)))
  have e8 : matchesTitle t testRatings combinedConfig
      (createTestMovie (bytes "8") (bytes "Short Film") false 2020 45 [bytes "Documentary"])
      = false :=
    hno _ (Or.inr (Or.inr (fun runtime hr => by
      have h := (Option.some.inj hr).symm
      subst h
      decide)))
  rw [mapToSlice_eq]
  simp only [testMovies, List.map_cons, List.map_nil, List.filter_cons, List.filter_nil, e1, e2,
    e3, e4, e5, e6, e7, e8, if_true, Bool.false_eq_true, if_false]
  rfl

/-! ## Lemmas: the two entry points -/

theorem FilterMoviesSync_perm (t : CaseTables) (rnd : (i : Nat) → Fin (i + 1))
    (movies : GoMap Movie) (ratings : GoMap rating) (cfg : config) :
    (FilterMoviesSync t rnd movies ratings cfg).Perm
      ((mapToSlice movies).filter (matchesTitle t ratings cfg)) := by
  unfold FilterMoviesSync
  simp only [filterMovieSlice_eq]
  exact randomizeResults_perm _ _

/-- Whenever `FilterMovies` returns, what it returns is a rearrangement of the
matching titles of the dataset. -/
theorem FilterMovies_perm_of_ok (t : CaseTables) (fuel : Nat) (numCPU : Int)
    (altWorkers : GoString) (sched : List Nat) (rnd : (i : Nat) → Fin (i + 1))
    (movies : GoMap Movie) (ratings : GoMap rating) (cfg : config) (results : List Movie)
    (h : FilterMovies t fuel numCPU altWorkers sched rnd movies ratings cfg = .ok results) :
    results.Perm ((mapToSlice movies).filter (matchesTitle t ratings cfg)) := by
  unfold FilterMovies at h
  cases hp : partitionSlice fuel (mapToSlice movies) (numWorkers numCPU altWorkers) with
  | panicked => simp [hp] at h
  | outOfFuel => simp [hp] at h
  | ok chunks =>
    simp only [hp, Outcome.ok.injEq] at h
    subst h
    refine (randomizeResults_perm _ _).trans ((collectFromChannel_perm _ _).trans ?_)
    have : (chunks.map fun chunk => filterMovieSlice t chunk ratings cfg)
        = chunks.map (List.filter (matchesTitle t ratings cfg)) := by
      apply List.map_congr_left
      intro c _
      exact filterMovieSlice_eq t c ratings cfg
    rw [this, ← List.filter_flatten, partitionSlice_flatten fuel _ _ chunks hp]

theorem FilterMovies_ok (t : CaseTables) (fuel : Nat) (numCPU : Int) (altWorkers : GoString)
    (sched : List Nat) (rnd : (i : Nat) → Fin (i + 1)) (movies : GoMap Movie)
    (ratings : GoMap rating) (cfg : config) (W : Nat)
    (hres : numWorkers numCPU altWorkers = (W : Int)) (h1 : 1 ≤ W)
    (hWN : W ≤ movies.length + 2) (hN : movies.length * movieSize ≤ maxAlloc)
    (hf : movies.length < fuel) :
    ∃ results, FilterMovies t fuel numCPU altWorkers sched rnd movies ratings cfg = .ok results ∧
      results.Perm ((mapToSlice movies).filter (matchesTitle t ratings cfg)) := by
  have hlen := mapToSlice_length movies
  have hp := partitionSlice_eq fuel (mapToSlice movies) W h1 (by rw [hlen]; exact hWN)
    (by rw [hlen]; exact hN) (by rw [hlen]; exact hf)
  rw [← hres] at hp
  have hr : FilterMovies t fuel numCPU altWorkers sched rnd movies ratings cfg
      = .ok (randomizeResults rnd (collectFromChannel sched
          ((chunksOf (mapToSlice movies) (ceilDiv (mapToSlice movies).length W)).map
            fun chunk => filterMovieSlice t chunk ratings cfg))) := by
    unfold FilterMovies
    simp only [hp]
  exact ⟨_, hr, FilterMovies_perm_of_ok t fuel numCPU altWorkers sched rnd movies ratings cfg _ hr⟩

theorem mapToSlice_perm (movies movies2 : GoMap Movie) (h : movies2.Perm movies) :
    (mapToSlice movies2).Perm (mapToSlice movies) := by
  rw [mapToSlice_eq, mapToSlice_eq]
  exact h.map _

theorem FilterMoviesSync_mem (t : CaseTables) (rnd : (i : Nat) → Fin (i + 1))
    (movies : GoMap Movie) (ratings : GoMap rating) (cfg : config) (m : Movie) :
    m ∈ FilterMoviesSync t rnd movies ratings cfg ↔
      m ∈ mapToSlice movies ∧ matchesTitle t ratings cfg m = true := by
  rw [(FilterMoviesSync_perm t rnd movies ratings cfg).mem_iff, List.mem_filter]

theorem FilterMovies_mem (t : CaseTables) (fuel : Nat) (numCPU : Int) (altWorkers : GoString)
    (sched : List Nat) (rnd : (i : Nat) → Fin (i + 1)) (movies : GoMap Movie)
    (ratings : GoMap rating) (cfg : config) (results : List Movie)
    (h : FilterMovies t fuel numCPU altWorkers sched rnd movies ratings cfg = .ok results)
    (m : Movie) :
    m ∈ results ↔ m ∈ mapToSlice movies ∧ matchesTitle t ratings cfg m = true := by
  rw [(FilterMovies_perm_of_ok t fuel numCPU altWorkers sched rnd movies ratings cfg results
    h).mem_iff, List.mem_filter]

/-! ## Claims -/

/-- C1. For a dataset of N titles (one that fits the address space of the
runtime), any ratings table, any criteria and a resolved worker count W with
1 <= W <= N + 2, the parallel path `FilterMovies` returns, whatever the
schedule of the workers and the draws of the shuffle, and the titles it
returns are exactly the titles the sequential path `FilterMoviesSync` returns
on the same dataset (visited in any order, with any draws). -/
theorem FilterMovies_set_eq_FilterMoviesSync (t : CaseTables) (fuel : Nat) (numCPU : Int)
    (altWorkers : GoString) (sched : List Nat) (rnd rnd2 : (i : Nat) → Fin (i + 1))
    (movies movies2 : GoMap Movie) (ratings : GoMap rating) (cfg : config) (W : Nat)
    (hsame : movies2.Perm movies)
    (hN : movies.length * movieSize ≤ maxAlloc)
    (hres : numWorkers numCPU altWorkers = (W : Int))
    (h1 : 1 ≤ W) (h2 : W ≤ movies.length + 2)
    (hf : movies.length < fuel) :
    ∃ results,
      FilterMovies t fuel numCPU altWorkers sched rnd movies ratings cfg = .ok results ∧
      ∀ m, m ∈ results ↔ m ∈ FilterMoviesSync t rnd2 movies2 ratings cfg := by
  obtain ⟨results, hr, hperm⟩ :=
    FilterMovies_ok t fuel numCPU altWorkers sched rnd movies ratings cfg W hres h1 h2 hN hf
  refine ⟨results, hr, fun m => ?_⟩
  have hs := FilterMoviesSync_perm t rnd2 movies2 ratings cfg
  have hm := (mapToSlice_perm movies movies2 hsame).filter (matchesTitle t ratings cfg)
  rw [hperm.mem_iff, hs.mem_iff, hm.mem_iff]

set_option maxRecDepth 100000 in
/-- C1, at the fixture: eight titles, `IMDB_SEARCH_WORKERS=9`. -/
theorem FilterMovies_set_eq_FilterMoviesSync_witness :
    ∃ results,
      FilterMovies fixtureTables 9 4 (bytes "9") [2, 0, 1] zeroDraws testMovies testRatings
        wideConfig = .ok results ∧
      ∀ m, m ∈ results ↔ m ∈ FilterMoviesSync fixtureTables zeroDraws testMovies.reverse
        testRatings wideConfig :=
  FilterMovies_set_eq_FilterMoviesSync fixtureTables 9 4 (bytes "9") [2, 0, 1] zeroDraws zeroDraws
    testMovies testMovies.reverse testRatings wideConfig 9 (List.reverse_perm _) (by decide)
    (by decide) (by decide) (by decide) (by decide)

/-- For a dataset of N titles with pairwise distinct ids that fits the
address space, any criteria and a resolved worker count W with
1 <= W <= N + 2, `FilterMovies` returns a sequence in which no id occurs
twice, whose length is the length of the sequence `FilterMoviesSync`
returns, and in which every matching title of the dataset occurs exactly
once. -/
theorem FilterMovies_exactly_once (t : CaseTables) (fuel : Nat) (numCPU : Int)
    (altWorkers : GoString) (sched : List Nat) (rnd rnd2 : (i : Nat) → Fin (i + 1))
    (movies movies2 : GoMap Movie) (ratings : GoMap rating) (cfg : config) (W : Nat)
    (hsame : movies2.Perm movies)
    (hids : (movies.map fun e => e.2.Id).Nodup)
    (hN : movies.length * movieSize ≤ maxAlloc)
    (hres : numWorkers numCPU altWorkers = (W : Int))
    (h1 : 1 ≤ W) (hWN : W ≤ movies.length + 2)
    (hf : movies.length < fuel) :
    ∃ results,
      FilterMovies t fuel numCPU altWorkers sched rnd movies ratings cfg = .ok results ∧
      (results.map Movie.Id).Nodup ∧
      results.length = (FilterMoviesSync t rnd2 movies2 ratings cfg).length ∧
      ∀ m, m ∈ mapToSlice movies → matchesTitle t ratings cfg m = true →
        results.count m = 1 := by
  obtain ⟨results, hr, hperm⟩ :=
    FilterMovies_ok t fuel numCPU altWorkers sched rnd movies ratings cfg W hres h1 hWN hN hf
  have hidsl : ((mapToSlice movies).map Movie.Id).Nodup := by
    rw [mapToSlice_eq, List.map_map]
    exact hids
  have hnd : (mapToSlice movies).Nodup := List.Nodup.of_map _ hidsl
  refine ⟨results, hr, ?_, ?_, ?_⟩
  · have hsub : (((mapToSlice movies).filter (matchesTitle t ratings cfg)).map Movie.Id).Sublist
        ((mapToSlice movies).map Movie.Id) := (List.filter_sublist _).map _
    exact ((hperm.map Movie.Id).nodup_iff).2 (hsub.nodup hidsl)
  · have hs := FilterMoviesSync_perm t rnd2 movies2 ratings cfg
    have hm := (mapToSlice_perm movies movies2 hsame).filter (matchesTitle t ratings cfg)
    rw [hperm.length_eq, hs.length_eq, hm.length_eq]
  · intro m hm hmatch
    rw [hperm.count_eq, List.count_filter hmatch]
    exact List.count_eq_one_of_mem hnd hm

set_option maxRecDepth 100000 in
/-- C2. The size of the override is not checked: with
`IMDB_SEARCH_WORKERS=9223372036854775807` on a host of 4 CPUs the worker
count handed to `partitionSlice` is `math.MaxInt`, and `FilterMovies` panics
on a dataset of two titles with distinct ids, whatever the schedule and the
draws: it returns no sequence, so no matching title is returned once. -/
theorem FilterMovies_maxInt_workers_panics :
    (twoMovies.map fun e => e.2.Id).Nodup ∧
    numWorkers 4 (bytes "9223372036854775807") = 9223372036854775807 ∧
    FilterMovies fixtureTables 9 4 (bytes "9223372036854775807") [] zeroDraws twoMovies
      testRatings wideConfig = .panicked ∧
    ¬ ∃ fuel sched rnd results,
      FilterMovies fixtureTables fuel 4 (bytes "9223372036854775807") sched rnd twoMovies
        testRatings wideConfig = .ok results := by
  have hw : numWorkers 4 (bytes "9223372036854775807") = 9223372036854775807 := by decide
  have hp : ∀ fuel, partitionSlice fuel (mapToSlice twoMovies)
      (numWorkers 4 (bytes "9223372036854775807")) = .panicked := by
    intro fuel
    rw [hw]
    exact partitionSlice_panicked_of_cap fuel _ _ (by decide) (by decide)
  refine ⟨by decide, hw, ?_, ?_⟩
  · unfold FilterMovies
    simp only [hp]
  · rintro ⟨fuel, sched, rnd, results, h⟩
    unfold FilterMovies at h
    simp only [hp] at h
    exact Outcome.noConfusion h

/-- For a list of N titles that fits the address space and a worker count W
with 1 <= W <= N + 2, `partitionSlice` returns at most W chunks; chunk k is the sub-range of the
list from position k*c up to, not including, min((k+1)*c, N), which is not
empty; the sub-range of an earlier chunk ends at or before the start of a
later one; and the chunks concatenated in order are the list. -/
theorem partitionSlice_contiguous_cover (fuel : Nat) (movies : List Movie) (W : Nat)
    (h1 : 1 ≤ W) (hWN : W ≤ movies.length + 2)
    (hN : movies.length * movieSize ≤ maxAlloc) (hf : movies.length < fuel) :
    ∃ chunks,
      partitionSlice fuel movies (W : Int) = .ok chunks ∧
      chunks.length ≤ W ∧
      chunks.flatten = movies ∧
      ∃ c : Nat,
        (∀ k (hk : k < chunks.length),
          chunks[k] = subSlice movies (k * c) (min ((k + 1) * c) movies.length) ∧
          k * c < min ((k + 1) * c) movies.length) ∧
        ∀ j k, j < k → min ((j + 1) * c) movies.length ≤ k * c := by
  refine ⟨_, partitionSlice_eq fuel movies W h1 hWN hN hf, ?_, ?_, ceilDiv movies.length W, ?_, ?_⟩
  · rw [chunksOf_length]
    rcases Nat.eq_zero_or_pos movies.length with h0 | h0
    · rw [h0, ceilDiv_zero]
      omega
    · exact ceilDiv_ceilDiv_le _ _ h1 h0
  · rcases Nat.eq_zero_or_pos movies.length with h0 | h0
    · have : movies = [] := List.length_eq_zero.1 h0
      subst this
      rw [chunksOf_nil]
      rfl
    · exact chunksOf_flatten _ _ (ceilDiv_pos _ _ h1 h0)
  · intro k hk
    refine ⟨by rw [chunksOf_getElem]; rfl, ?_⟩
    rw [chunksOf_length] at hk
    rcases Nat.eq_zero_or_pos movies.length with h0 | h0
    · rw [h0, ceilDiv_zero] at hk
      omega
    · have hc := ceilDiv_pos _ _ h1 h0
      have := (lt_ceilDiv_iff _ _ k hc).1 hk
      rw [Nat.add_mul]
      omega
  · intro j k hjk
    have : (j + 1) * ceilDiv movies.length W ≤ k * ceilDiv movies.length W :=
      Nat.mul_le_mul_right _ hjk
    omega

set_option maxRecDepth 100000 in
/-- C3. On two titles with W = 9223372036854775807 (`math.MaxInt`, a worker
count that is at least 1) `partitionSlice` panics and returns no chunks, so
no chunks cover the list. The capacity is out of range for `make`; and the
sum `len(movies) + numWorkers - 1` has wrapped, so that the chunk size is
-1, with which the first slice expression of the loop is out of range as
well. -/
theorem partitionSlice_maxInt_workers_panics :
    (1 : Int) ≤ maxInt ∧
    partitionSlice 3 twoTitles maxInt = .panicked ∧
    (¬ ∃ fuel chunks, partitionSlice fuel twoTitles maxInt = .ok chunks ∧
      chunks.flatten = twoTitles) ∧
    wrapInt (Int.tdiv (wrapInt (wrapInt ((twoTitles.length : Int) + maxInt) - 1)) maxInt) = -1 ∧
    partitionLoop twoTitles (-1) 3 0 [] = .panicked := by
  refine ⟨by decide, partitionSlice_panicked_of_cap 3 _ _ (by decide) (by decide), ?_,
    by decide, by decide⟩
  rintro ⟨fuel, chunks, h, _⟩
  rw [partitionSlice_panicked_of_cap fuel _ _ (by decide) (by decide)] at h
  exact Outcome.noConfusion h

/-- For a non-empty list of N titles that fits the address space and a
worker count W with 1 <= W <= N + 2, `partitionSlice` returns at least one
chunk, every chunk but the last has exactly ceil(N / W) elements, and the
last has at least 1 and at most ceil(N / W). -/
theorem partitionSlice_chunk_sizes (fuel : Nat) (movies : List Movie) (W : Nat)
    (hne : movies ≠ [])
    (h1 : 1 ≤ W) (hWN : W ≤ movies.length + 2)
    (hN : movies.length * movieSize ≤ maxAlloc) (hf : movies.length < fuel) :
    ∃ chunks,
      partitionSlice fuel movies (W : Int) = .ok chunks ∧
      1 ≤ chunks.length ∧
      ∀ k (hk : k < chunks.length),
        (k + 1 < chunks.length → chunks[k].length = ⌈(movies.length : ℚ) / (W : ℚ)⌉₊) ∧
        (k + 1 = chunks.length →
          1 ≤ chunks[k].length ∧ chunks[k].length ≤ ⌈(movies.length : ℚ) / (W : ℚ)⌉₊) := by
  have h0 : 0 < movies.length := List.length_pos.2 hne
  have hc := ceilDiv_pos _ _ h1 h0
  rw [← ceilDiv_eq_ceil _ _ h1]
  refine ⟨_, partitionSlice_eq fuel movies W h1 hWN hN hf, ?_, ?_⟩
  · rw [chunksOf_length]
    exact ceilDiv_pos _ _ hc h0
  · intro k hk
    rw [chunksOf_getElem, chunkAt_length]
    rw [chunksOf_length] at hk
    have hlt := (lt_ceilDiv_iff _ _ k hc).1 hk
    rw [chunksOf_length]
    constructor
    · intro hk1
      have := (lt_ceilDiv_iff _ _ (k + 1) hc).1 hk1
      rw [Nat.add_mul] at this ⊢
      omega
    · intro _
      rw [Nat.add_mul]
      omega

set_option maxRecDepth 100000 in
/-- C4. On a non-empty list of two titles with W = 9223372036854775807
`partitionSlice` panics: it returns no chunks, so there is no last chunk
with at least one element and no chunk of ceil(N / W) elements. -/
theorem partitionSlice_maxInt_workers_no_chunk :
    twoTitles ≠ [] ∧
    partitionSlice 9 twoTitles 9223372036854775807 = .panicked ∧
    ¬ ∃ fuel chunks, partitionSlice fuel twoTitles 9223372036854775807 = .ok chunks ∧
      1 ≤ chunks.length := by
  refine ⟨by decide, partitionSlice_panicked_of_cap 9 _ _ (by decide) (by decide), ?_⟩
  rintro ⟨fuel, chunks, h, _⟩
  rw [partitionSlice_panicked_of_cap fuel _ _ (by decide) (by decide)] at h
  exact Outcome.noConfusion h

/-- For a list of N titles that fits the address space and a worker count W
with N < W <= N + 2, `partitionSlice` returns exactly N chunks (none when
N = 0) of exactly one title each; and on a dataset with these titles the
titles `FilterMovies` returns with this W are the titles it returns with
W = 1. -/
theorem partitionSlice_oversubscribed (fuel : Nat) (movies : List Movie) (W : Nat)
    (hgt : movies.length < W) (hWN : W ≤ movies.length + 2)
    (hN : movies.length * movieSize ≤ maxAlloc) (hf : movies.length < fuel) :
    (∃ chunks,
      partitionSlice fuel movies (W : Int) = .ok chunks ∧
      chunks.length = movies.length ∧
      ∀ c ∈ chunks, c.length = 1) ∧
    ∀ (t : CaseTables) (numCPU numCPU1 : Int) (altWorkers altWorkers1 : GoString)
      (sched sched1 : List Nat) (rnd rnd1 : (i : Nat) → Fin (i + 1))
      (dataset dataset1 : GoMap Movie) (ratings : GoMap rating) (cfg : config),
      mapToSlice dataset = movies → dataset1.Perm dataset →
      numWorkers numCPU altWorkers = (W : Int) → numWorkers numCPU1 altWorkers1 = 1 →
      ∃ results results1,
        FilterMovies t fuel numCPU altWorkers sched rnd dataset ratings cfg = .ok results ∧
        FilterMovies t fuel numCPU1 altWorkers1 sched1 rnd1 dataset1 ratings cfg
          = .ok results1 ∧
        ∀ m, m ∈ results ↔ m ∈ results1 := by
  have h1 : 1 ≤ W := by omega
  constructor
  · refine ⟨_, partitionSlice_eq fuel movies W h1 hWN hN hf, ?_, ?_⟩
    · rw [chunksOf_length]
      rcases Nat.eq_zero_or_pos movies.length with h0 | h0
      · rw [h0, ceilDiv_zero]
      · rw [ceilDiv_of_lt _ _ h0 hgt, ceilDiv_one]
    · intro c hc
      rcases Nat.eq_zero_or_pos movies.length with h0 | h0
      · have : movies = [] := List.length_eq_zero.1 h0
        subst this
        rw [chunksOf_nil] at hc
        exact absurd hc (List.not_mem_nil _)
      · rw [ceilDiv_of_lt _ _ h0 hgt] at hc
        unfold chunksOf at hc
        rw [ceilDiv_one] at hc
        obtain ⟨k, hk, rfl⟩ := List.mem_map.1 hc
        rw [List.mem_range] at hk
        rw [chunkAt_length]
        omega
  · intro t numCPU numCPU1 altWorkers altWorkers1 sched sched1 rnd rnd1 dataset dataset1 ratings
      cfg hds hperm hres hres1
    have hlen : dataset.length = movies.length := by rw [← hds, mapToSlice_length]
    have hlen1 : dataset1.length = movies.length := by rw [hperm.length_eq, hlen]
    obtain ⟨results, hr, hp⟩ := FilterMovies_ok t fuel numCPU altWorkers sched rnd dataset ratings
      cfg W hres h1 (by rw [hlen]; exact hWN) (by rw [hlen]; exact hN) (by rw [hlen]; exact hf)
    obtain ⟨results1, hr1, hp1⟩ := FilterMovies_ok t fuel numCPU1 altWorkers1 sched1 rnd1 dataset1
      ratings cfg 1 (by simpa using hres1) (le_refl 1) (by omega) (by rw [hlen1]; exact hN)
      (by rw [hlen1]; exact hf)
    refine ⟨results, results1, hr, hr1, fun m => ?_⟩
    have hm := (mapToSlice_perm dataset dataset1 hperm).filter (matchesTitle t ratings cfg)
    rw [hp.mem_iff, hp1.mem_iff, hm.mem_iff]

set_option maxRecDepth 100000 in
/-- C5. W = 9223372036854775807 exceeds the two titles of the list, and
`partitionSlice` panics instead of returning two chunks of one title each,
the result `TestFilterMovies_MoreWorkersThanFilms` expects of a worker count
above the number of titles. -/
theorem partitionSlice_oversubscribed_maxInt_panics :
    ((twoTitles.length : Nat) : Int) < 9223372036854775807 ∧
    partitionSlice 3 twoTitles 9223372036854775807 = .panicked ∧
    ¬ ∃ fuel chunks, partitionSlice fuel twoTitles 9223372036854775807 = .ok chunks ∧
      chunks.length = twoTitles.length := by
  refine ⟨by decide, partitionSlice_panicked_of_cap 3 _ _ (by decide) (by decide), ?_⟩
  rintro ⟨fuel, chunks, h, _⟩
  rw [partitionSlice_panicked_of_cap fuel _ _ (by decide) (by decide)] at h
  exact Outcome.noConfusion h

set_option maxRecDepth 100000 in
/-- C6. The sign of the override is not checked: with
`IMDB_SEARCH_WORKERS=0` and with `IMDB_SEARCH_WORKERS=-3` on a host of 4
CPUs the worker count handed to `partitionSlice` is 0 and -3, not 4, and
`FilterMovies` panics on the fixture. -/
theorem numWorkers_nonpositive_override :
    numWorkers 4 (bytes "0") = 0 ∧
    numWorkers 4 (bytes "-3") = -3 ∧
    FilterMovies fixtureTables 9 4 (bytes "0") [] zeroDraws testMovies testRatings wideConfig
      = .panicked ∧
    FilterMovies fixtureTables 9 4 (bytes "-3") [] zeroDraws testMovies testRatings wideConfig
      = .panicked := by
  refine ⟨by decide, by decide, ?_, ?_⟩
  · have h : partitionSlice 9 (mapToSlice testMovies) (numWorkers 4 (bytes "0")) = .panicked := by
      decide
    unfold FilterMovies
    simp only [h]
  · have h : partitionSlice 9 (mapToSlice testMovies) (numWorkers 4 (bytes "-3")) = .panicked := by
      decide
    unfold FilterMovies
    simp only [h]

/-- C7. `shouldIncludeMovie` is true exactly when all five hold: the adult
flag is not excluded or not set; the start year is present and within
[minYear, maxYear]; the runtime is present and within [minRuntime,
maxRuntime]; a rating exists, is at least minRating and its vote count is
within [minVotes, maxVotes]; the requested genre list is empty or `hasGenre`
holds. The five sub-filters conjoined in any order give the same value. -/
theorem shouldIncludeMovie_iff (t : CaseTables) (movie : Movie) (r : rating) (hasRating : Bool)
    (cfg : config) :
    (shouldIncludeMovie t movie r hasRating cfg = true ↔
      (cfg.excludeAdult = false ∨ movie.isAdult = false) ∧
      (∃ year, movie.StartYear = some year ∧ cfg.minYear ≤ year ∧ year ≤ cfg.maxYear) ∧
      (∃ runtime, movie.runtimeMinutes = some runtime ∧
        cfg.minRuntime ≤ runtime ∧ runtime ≤ cfg.maxRuntime) ∧
      (hasRating = true ∧ r.AverageRating.ge cfg.minRating = true ∧
        cfg.minVotes ≤ r.NumVotes ∧ r.NumVotes ≤ cfg.maxVotes) ∧
      (cfg.genres = [] ∨ hasGenre t movie.Genres cfg.genres = true)) ∧
    ∀ order : List Bool,
      order.Perm [passesAdultFilter movie cfg, passesYearFilter movie cfg,
        passesRuntimeFilter movie cfg, passesRatingFilter r hasRating cfg,
        passesGenreFilter t movie cfg] →
      order.all id = shouldIncludeMovie t movie r hasRating cfg := by
  constructor
  · unfold shouldIncludeMovie passesAdultFilter passesYearFilter passesRuntimeFilter
      passesRatingFilter passesGenreFilter
    have hg : (cfg.genres.length = 0) ↔ cfg.genres = [] := List.length_eq_zero
    cases hy : movie.StartYear <;> cases hr : movie.runtimeMinutes <;> cases hasRating <;>
      by_cases hgen : cfg.genres = [] <;>
      simp [hg, hgen, and_assoc]
  · intro order hperm
    have h1 : order.all id = true ↔
        ([passesAdultFilter movie cfg, passesYearFilter movie cfg,
          passesRuntimeFilter movie cfg, passesRatingFilter r hasRating cfg,
          passesGenreFilter t movie cfg].all id = true) := by
      simp only [List.all_eq_true]
      exact ⟨fun h x hx => h x (hperm.mem_iff.2 hx), fun h x hx => h x (hperm.mem_iff.1 hx)⟩
    have h2 : [passesAdultFilter movie cfg, passesYearFilter movie cfg,
          passesRuntimeFilter movie cfg, passesRatingFilter r hasRating cfg,
          passesGenreFilter t movie cfg].all id = shouldIncludeMovie t movie r hasRating cfg := by
      simp [shouldIncludeMovie, Bool.and_assoc]
    rw [← h2]
    exact Bool.eq_iff_iff.2 h1

/-- C8. A title whose start year is absent, or whose runtime is absent, or
whose id has no entry in the ratings table is rejected by
`shouldIncludeMovie` under every criteria, is in the result of
`FilterMoviesSync` for no dataset and in no result `FilterMovies` returns;
and the absent rating is not a rating of zero: a rating of zero that is
present passes the rating filter of criteria with minRating = 0 and
minVotes = 0, the absent one does not. -/
theorem absent_attribute_excluded (t : CaseTables) (movie : Movie) (ratings : GoMap rating)
    (cfg : config)
    (h : movie.StartYear = none ∨ movie.runtimeMinutes = none ∨ ratings.get movie.Id = none) :
    shouldIncludeMovie t movie (lookupRating ratings movie.Id).1 (lookupRating ratings movie.Id).2
        cfg = false ∧
    (∀ (rnd : (i : Nat) → Fin (i + 1)) (movies : GoMap Movie),
      movie ∉ FilterMoviesSync t rnd movies ratings cfg) ∧
    (∀ (fuel : Nat) (numCPU : Int) (altWorkers : GoString) (sched : List Nat)
      (rnd : (i : Nat) → Fin (i + 1)) (movies : GoMap Movie) (results : List Movie),
      FilterMovies t fuel numCPU altWorkers sched rnd movies ratings cfg = .ok results →
      movie ∉ results) ∧
    passesRatingFilter rating.zero true wideConfig = true ∧
    passesRatingFilter rating.zero false wideConfig = false := by
  have hrej : matchesTitle t ratings cfg movie = false := by
    unfold matchesTitle
    apply shouldIncludeMovie_false_of_absent
    rcases h with h | h | h
    · exact Or.inl h
    · exact Or.inr (Or.inl h)
    · refine Or.inr (Or.inr ?_)
      rw [lookupRating_snd, h]
      rfl
  refine ⟨hrej, ?_, ?_, ?_, ?_⟩
  · intro rnd movies hm
    have := ((FilterMoviesSync_mem t rnd movies ratings cfg movie).1 hm).2
    rw [hrej] at this
    exact Bool.noConfusion this
  · intro fuel numCPU altWorkers sched rnd movies results hr hm
    have := ((FilterMovies_mem t fuel numCPU altWorkers sched rnd movies ratings cfg results hr
      movie).1 hm).2
    rw [hrej] at this
    exact Bool.noConfusion this
  · simp [passesRatingFilter, rating.zero, wideConfig, Float64.ge, Float64.le, maxInt]
  · simp [passesRatingFilter]

/-- C8, at the first title of the fixture with its start year removed. -/
theorem absent_attribute_excluded_witness :
    shouldIncludeMovie fixtureTables noYearTitle (lookupRating testRatings noYearTitle.Id).1
        (lookupRating testRatings noYearTitle.Id).2 wideConfig = false ∧
    (∀ (rnd : (i : Nat) → Fin (i + 1)) (movies : GoMap Movie),
      noYearTitle ∉ FilterMoviesSync fixtureTables rnd movies testRatings wideConfig) ∧
    (∀ (fuel : Nat) (numCPU : Int) (altWorkers : GoString) (sched : List Nat)
      (rnd : (i : Nat) → Fin (i + 1)) (movies : GoMap Movie) (results : List Movie),
      FilterMovies fixtureTables fuel numCPU altWorkers sched rnd movies testRatings wideConfig
        = .ok results →
      noYearTitle ∉ results) ∧
    passesRatingFilter rating.zero true wideConfig = true ∧
    passesRatingFilter rating.zero false wideConfig = false :=
  absent_attribute_excluded fixtureTables noYearTitle testRatings wideConfig (Or.inl rfl)

/-- C9. With excludeAdult = true no title with the adult flag set is in the
result of `FilterMoviesSync` or in a result `FilterMovies` returns. With
excludeAdult = false the flag has no influence: the test of a title does not
change when its flag is changed, and a title is returned exactly when it is
in the dataset and passes the test with its flag cleared. -/
theorem adult_exclusion (t : CaseTables) (ratings : GoMap rating) (cfg : config) :
    (cfg.excludeAdult = true →
      (∀ (rnd : (i : Nat) → Fin (i + 1)) (movies : GoMap Movie),
        ∀ m ∈ FilterMoviesSync t rnd movies ratings cfg, m.isAdult = false) ∧
      (∀ (fuel : Nat) (numCPU : Int) (altWorkers : GoString) (sched : List Nat)
        (rnd : (i : Nat) → Fin (i + 1)) (movies : GoMap Movie) (results : List Movie),
        FilterMovies t fuel numCPU altWorkers sched rnd movies ratings cfg = .ok results →
        ∀ m ∈ results, m.isAdult = false)) ∧
    (cfg.excludeAdult = false →
      (∀ (movie : Movie) (flag : Bool),
        matchesTitle t ratings cfg { movie with isAdult := flag }
          = matchesTitle t ratings cfg movie) ∧
      (∀ (rnd : (i : Nat) → Fin (i + 1)) (movies : GoMap Movie) (m : Movie),
        m ∈ FilterMoviesSync t rnd movies ratings cfg ↔
          m ∈ mapToSlice movies ∧
          matchesTitle t ratings cfg { m with isAdult := false } = true) ∧
      (∀ (fuel : Nat) (numCPU : Int) (altWorkers : GoString) (sched : List Nat)
        (rnd : (i : Nat) → Fin (i + 1)) (movies : GoMap Movie) (results : List Movie),
        FilterMovies t fuel numCPU altWorkers sched rnd movies ratings cfg = .ok results →
        ∀ m, m ∈ results ↔
          m ∈ mapToSlice movies ∧
          matchesTitle t ratings cfg { m with isAdult := false } = true)) := by
  constructor
  · intro hex
    have key : ∀ m, matchesTitle t ratings cfg m = true → m.isAdult = false := by
      intro m hm
      unfold matchesTitle shouldIncludeMovie passesAdultFilter at hm
      simp only [hex, Bool.not_true, Bool.false_or, Bool.and_eq_true, Bool.not_eq_true'] at hm
      exact hm.1.1.1.1
    exact ⟨fun rnd movies m hm => key m ((FilterMoviesSync_mem t rnd movies ratings cfg m).1 hm).2,
      fun fuel numCPU altWorkers sched rnd movies results hr m hm =>
        key m ((FilterMovies_mem t fuel numCPU altWorkers sched rnd movies ratings cfg results hr
          m).1 hm).2⟩
  · intro hex
    have key : ∀ (movie : Movie) (flag : Bool),
        matchesTitle t ratings cfg { movie with isAdult := flag }
          = matchesTitle t ratings cfg movie := by
      intro movie flag
      simp [matchesTitle, shouldIncludeMovie, passesAdultFilter, passesYearFilter,
        passesRuntimeFilter, passesGenreFilter, hex]
    refine ⟨key, ?_, ?_⟩
    · intro rnd movies m
      rw [FilterMoviesSync_mem, key m false]
    · intro fuel numCPU altWorkers sched rnd movies results hr m
      rw [FilterMovies_mem t fuel numCPU altWorkers sched rnd movies ratings cfg results hr,
        key m false]

/-- C9, at the criteria of the fixture with and without adult titles excluded. -/
theorem adult_exclusion_witness :
    ((∀ (rnd : (i : Nat) → Fin (i + 1)) (movies : GoMap Movie),
        ∀ m ∈ FilterMoviesSync fixtureTables rnd movies testRatings noAdultConfig,
          m.isAdult = false) ∧
      (∀ (fuel : Nat) (numCPU : Int) (altWorkers : GoString) (sched : List Nat)
        (rnd : (i : Nat) → Fin (i + 1)) (movies : GoMap Movie) (results : List Movie),
        FilterMovies fixtureTables fuel numCPU altWorkers sched rnd movies testRatings
          noAdultConfig = .ok results →
        ∀ m ∈ results, m.isAdult = false)) ∧
    ∀ (movie : Movie) (flag : Bool),
      matchesTitle fixtureTables testRatings wideConfig { movie with isAdult := flag }
        = matchesTitle fixtureTables testRatings wideConfig movie :=
  ⟨(adult_exclusion fixtureTables testRatings noAdultConfig).1 rfl,
    ((adult_exclusion fixtureTables testRatings wideConfig).2 rfl).1⟩

/-- What `hasGenre` computes: it is true exactly when some requested genre,
after `normalizeGenre`, is equal verbatim to some genre string of the title
(which is not normalized: a title tagged "action" is not matched by the
request "action"). `normalizeGenre` keeps the empty string empty; it
lowercases the string with `strings.ToLower` (on an ASCII string, every
letter lowercased) and, when the first byte of the lowercased string is an
ASCII character, uppercases that character. "ACTION" and "drama" normalize
to "Action" and "Drama" and match titles tagged "Action" or "Drama". -/
theorem hasGenre_iff_normalized (t : CaseTables) (movieGenres filterGenres : List GoString) :
    (hasGenre t movieGenres filterGenres = true
      ↔ ∃ g ∈ filterGenres, normalizeGenre t g ∈ movieGenres) ∧
    normalizeGenre t [] = [] ∧
    (∀ s, isASCII s = true → ToLower t s = s.map lowerByte) ∧
    (∀ s b rest, ToLower t s = b :: rest → b < 128 →
      normalizeGenre t s = upperByte b :: rest) ∧
    normalizeGenre t (bytes "ACTION") = bytes "Action" ∧
    normalizeGenre t (bytes "drama") = bytes "Drama" ∧
    hasGenre t [bytes "Action"] [bytes "ACTION", bytes "drama"] = true ∧
    hasGenre t [bytes "Drama"] [bytes "ACTION", bytes "drama"] = true ∧
    hasGenre t [bytes "action"] [bytes "action"] = false := by
  refine ⟨hasGenre_iff t movieGenres filterGenres, by simp [normalizeGenre], ?_,
    fun s b rest hl hb => normalizeGenre_of_ascii_head t s b rest hl hb,
    normalizeGenre_ACTION t, normalizeGenre_drama t, ?_, ?_, ?_⟩
  · intro s hs
    unfold ToLower
    rw [if_pos hs]
  · rw [hasGenre_iff]
    exact ⟨bytes "ACTION", by simp, by rw [normalizeGenre_ACTION]; simp⟩
  · rw [hasGenre_iff]
    exact ⟨bytes "drama", by simp, by rw [normalizeGenre_drama]; simp⟩
  · rw [Bool.eq_false_iff]
    intro h
    rw [hasGenre_iff] at h
    obtain ⟨g, hg, hm⟩ := h
    rw [List.mem_singleton] at hg
    subst hg
    rw [normalizeGenre_action, List.mem_singleton] at hm
    exact absurd hm (by decide)

/-- C10. `normalizeGenre` uppercases the first byte of the lowercased string,
not its first letter: the request "é" (bytes C3 A9), whose only letter
lowercased and then uppercased is "É" (bytes C3 89), is normalized to the
bytes C3 83 A9, the upper case of the first byte read as the code point
U+00C3 followed by the second byte, and `hasGenre` does not match it with a
title tagged "É". -/
theorem normalizeGenre_nonASCII_first_letter :
    normalizeGenre fixtureTables (bytes "é") = [195, 131, 169] ∧
    bytes "É" = [195, 137] ∧
    (¬ ∃ t : CaseTables, normalizeGenre t (bytes "é") = bytes "É") ∧
    ¬ ∃ t : CaseTables, hasGenre t [bytes "É"] [bytes "é"] = true := by
  refine ⟨normalizeGenre_e_acute _, by decide, ?_, ?_⟩
  · rintro ⟨t, h⟩
    rw [normalizeGenre_e_acute] at h
    exact absurd h (by decide)
  · rintro ⟨t, h⟩
    rw [hasGenre_iff] at h
    obtain ⟨g, hg, hm⟩ := h
    rw [List.mem_singleton] at hg
    subst hg
    rw [normalizeGenre_e_acute, List.mem_singleton] at hm
    exact absurd hm (by decide)

/-- What `passesGenreFilter` computes: with an empty requested list it is true
for every title. Otherwise it is true exactly when some requested genre,
after `normalizeGenre`, is equal verbatim to some genre string of the
title. For a title whose genre strings `normalizeGenre` leaves as they are
(such as "Action" and "Drama") and ASCII requests this is the intersection
of the two lists up to the case of letters. -/
theorem passesGenreFilter_iff (t : CaseTables) (movie : Movie) (cfg : config) :
    (cfg.genres = [] → passesGenreFilter t movie cfg = true) ∧
    (cfg.genres ≠ [] →
      (passesGenreFilter t movie cfg = true
        ↔ ∃ g ∈ cfg.genres, normalizeGenre t g ∈ movie.Genres)) ∧
    (cfg.genres ≠ [] → (∀ tg ∈ movie.Genres, normalizeGenre t tg = tg) →
      (∀ g ∈ cfg.genres, isASCII g = true) →
      (passesGenreFilter t movie cfg = true
        ↔ ∃ g ∈ cfg.genres, ∃ tg ∈ movie.Genres, equalFold g tg = true)) := by
  refine ⟨fun h => (passesGenreFilter_true_iff t movie cfg).2 (Or.inl h), ?_, ?_⟩
  · intro hne
    rw [passesGenreFilter_true_iff]
    simp [hne]
  · intro hne htitle hreq
    rw [passesGenreFilter_true_iff]
    constructor
    · rintro (h | ⟨g, hg, hm⟩)
      · exact absurd h hne
      · exact ⟨g, hg, normalizeGenre t g, hm,
          (normalizeGenre_eq_iff_equalFold t g _ (hreq g hg) (htitle _ hm)).1 rfl⟩
    · rintro ⟨g, hg, tg, htg, hfold⟩
      refine Or.inr ⟨g, hg, ?_⟩
      rw [(normalizeGenre_eq_iff_equalFold t g tg (hreq g hg) (htitle tg htg)).2 hfold]
      exact htg

/-- C11. Only the request is normalized, to one capital letter at most: a
title tagged "Sci-Fi" is matched neither by the request "sci-fi" nor by the
request "Sci-Fi", both equal to its tag up to case, because both are
normalized to "Sci-fi", and `passesGenreFilter` answers false. -/
theorem passesGenreFilter_SciFi_unmatched :
    equalFold (bytes "sci-fi") (bytes "Sci-Fi") = true ∧
    equalFold (bytes "Sci-Fi") (bytes "Sci-Fi") = true ∧
    normalizeGenre fixtureTables (bytes "Sci-Fi") = bytes "Sci-fi" ∧
    passesGenreFilter fixtureTables sciFiTitle (genreConfig [bytes "sci-fi"]) = false ∧
    passesGenreFilter fixtureTables sciFiTitle (genreConfig [bytes "Sci-Fi"]) = false ∧
    ¬ ∃ t : CaseTables, passesGenreFilter t sciFiTitle (genreConfig [bytes "Sci-Fi"]) = true := by
  have hn : ∀ t : CaseTables, normalizeGenre t (bytes "Sci-Fi") = bytes "Sci-fi" := by
    intro t
    rw [normalizeGenre_of_isASCII t _ (by decide)]
    decide
  have hn2 : ∀ t : CaseTables, normalizeGenre t (bytes "sci-fi") = bytes "Sci-fi" := by
    intro t
    rw [normalizeGenre_of_isASCII t _ (by decide)]
    decide
  have h1 : ∀ t : CaseTables,
      ¬ passesGenreFilter t sciFiTitle (genreConfig [bytes "Sci-Fi"]) = true := by
    intro t h
    rcases (passesGenreFilter_true_iff t _ _).1 h with h | ⟨g, hg, hm⟩
    · exact absurd h (by decide)
    · have : g = bytes "Sci-Fi" := by simpa [genreConfig] using hg
      subst this
      rw [hn] at hm
      exact absurd hm (by decide)
  have h2 : ∀ t : CaseTables,
      ¬ passesGenreFilter t sciFiTitle (genreConfig [bytes "sci-fi"]) = true := by
    intro t h
    rcases (passesGenreFilter_true_iff t _ _).1 h with h | ⟨g, hg, hm⟩
    · exact absurd h (by decide)
    · have : g = bytes "sci-fi" := by simpa [genreConfig] using hg
      subst this
      rw [hn2] at hm
      exact absurd hm (by decide)
  refine ⟨by decide, by decide, hn _, ?_, ?_, ?_⟩
  · exact Bool.eq_false_iff.2 (h2 _)
  · exact Bool.eq_false_iff.2 (h1 _)
  · rintro ⟨t, h⟩
    exact h1 t h

/-- C12. Whatever the draws, `randomizeResults` leaves a permutation of its
input: same length, every element as often as before. Two invocations of
`FilterMoviesSync` on identical inputs return permutations of one another,
whatever the draws and the order in which the map is visited; two
invocations of `FilterMovies` on identical inputs either both return or
both do not, and what they return are permutations of one another. -/
theorem randomizeResults_membership :
    (∀ (rnd : (i : Nat) → Fin (i + 1)) (movies : List Movie),
      (randomizeResults rnd movies).Perm movies ∧
      (randomizeResults rnd movies).length = movies.length ∧
      ∀ m, (randomizeResults rnd movies).count m = movies.count m) ∧
    (∀ (t : CaseTables) (rnd1 rnd2 : (i : Nat) → Fin (i + 1)) (movies1 movies2 : GoMap Movie)
      (ratings : GoMap rating) (cfg : config), movies2.Perm movies1 →
      (FilterMoviesSync t rnd1 movies1 ratings cfg).Perm
        (FilterMoviesSync t rnd2 movies2 ratings cfg) ∧
      ∀ m, m ∈ FilterMoviesSync t rnd1 movies1 ratings cfg
        ↔ m ∈ FilterMoviesSync t rnd2 movies2 ratings cfg) ∧
    (∀ (t : CaseTables) (fuel : Nat) (numCPU : Int) (altWorkers : GoString)
      (sched1 sched2 : List Nat) (rnd1 rnd2 : (i : Nat) → Fin (i + 1))
      (movies1 movies2 : GoMap Movie) (ratings : GoMap rating) (cfg : config),
      movies2.Perm movies1 →
      ((∃ results1,
          FilterMovies t fuel numCPU altWorkers sched1 rnd1 movies1 ratings cfg = .ok results1)
        ↔ ∃ results2,
          FilterMovies t fuel numCPU altWorkers sched2 rnd2 movies2 ratings cfg = .ok results2) ∧
      ∀ results1 results2,
        FilterMovies t fuel numCPU altWorkers sched1 rnd1 movies1 ratings cfg = .ok results1 →
        FilterMovies t fuel numCPU altWorkers sched2 rnd2 movies2 ratings cfg = .ok results2 →
        results1.Perm results2 ∧ ∀ m, m ∈ results1 ↔ m ∈ results2) := by
  refine ⟨?_, ?_, ?_⟩
  · intro rnd movies
    have h := randomizeResults_perm rnd movies
    exact ⟨h, h.length_eq, fun m => h.count_eq m⟩
  · intro t rnd1 rnd2 movies1 movies2 ratings cfg hperm
    have h1 := FilterMoviesSync_perm t rnd1 movies1 ratings cfg
    have h2 := FilterMoviesSync_perm t rnd2 movies2 ratings cfg
    have hm := (mapToSlice_perm movies1 movies2 hperm).filter (matchesTitle t ratings cfg)
    have h := h1.trans (hm.symm.trans h2.symm)
    exact ⟨h, fun m => h.mem_iff⟩
  · intro t fuel numCPU altWorkers sched1 sched2 rnd1 rnd2 movies1 movies2 ratings cfg hperm
    have hlen : (mapToSlice movies2).length = (mapToSlice movies1).length := by
      rw [mapToSlice_length, mapToSlice_length, hperm.length_eq]
    constructor
    · rw [FilterMovies_ok_iff_partition, FilterMovies_ok_iff_partition]
      exact ⟨partitionSlice_ok_of_length fuel _ _ hlen _,
        partitionSlice_ok_of_length fuel _ _ hlen.symm _⟩
    · intro results1 results2 hr1 hr2
      have h1 := FilterMovies_perm_of_ok t fuel numCPU altWorkers sched1 rnd1 movies1 ratings cfg
        results1 hr1
      have h2 := FilterMovies_perm_of_ok t fuel numCPU altWorkers sched2 rnd2 movies2 ratings cfg
        results2 hr2
      have hm := (mapToSlice_perm movies1 movies2 hperm).filter (matchesTitle t ratings cfg)
      have h := h1.trans (hm.symm.trans h2.symm)
      exact ⟨h, fun m => h.mem_iff⟩

/-- C13. For a sequence of n pairwise distinct titles, sending a draw vector
(j_0, ..., j_{n-1}) with j_i <= i to the arrangement `randomizeResults`
leaves is a bijection from the draw vectors onto the permutations of the
sequence; there are n! draw vectors and n! permutations. -/
theorem randomizeResults_bijective (movies : List Movie) (hnd : movies.Nodup) :
    (∀ v : (i : Fin movies.length) → Fin (i.val + 1),
      (randomizeResults (drawsOfVector v) movies).Perm movies) ∧
    (∀ v w : (i : Fin movies.length) → Fin (i.val + 1),
      randomizeResults (drawsOfVector v) movies = randomizeResults (drawsOfVector w) movies →
      v = w) ∧
    (∀ arrangement : List Movie, arrangement.Perm movies →
      ∃ v : (i : Fin movies.length) → Fin (i.val + 1),
        randomizeResults (drawsOfVector v) movies = arrangement) ∧
    Fintype.card ((i : Fin movies.length) → Fin (i.val + 1)) = movies.length.factorial ∧
    movies.permutations.length = movies.length.factorial ∧
    movies.permutations.Nodup ∧
    ∀ arrangement : List Movie, arrangement ∈ movies.permutations ↔ arrangement.Perm movies := by
  refine ⟨fun v => randomizeResults_perm _ _, ?_, ?_, card_drawVectors _,
    List.length_permutations _, List.nodup_permutations _ hnd, fun _ => List.mem_permutations⟩
  · intro v w h
    rw [randomizeResults_eq_shuffleSteps, randomizeResults_eq_shuffleSteps] at h
    have hi := shuffleSteps_injective movies hnd _ _ movies.length (le_refl _) h
    funext i
    have := hi i.val i.isLt
    simpa [drawsOfVector, i.isLt] using this
  · intro arrangement hperm
    obtain ⟨rnd, hr⟩ := shuffleSteps_surjective movies hnd movies.length (le_refl _) arrangement
      hperm (fun p hp => by
        rw [List.getElem?_eq_none (by rw [hperm.length_eq]; exact hp), List.getElem?_eq_none hp])
    refine ⟨fun i => rnd i.val, ?_⟩
    rw [randomizeResults_eq_shuffleSteps, ← hr]
    apply shuffleSteps_congr
    intro i hi
    simp [drawsOfVector, hi]

/-- C13, at the eight titles of the fixture. -/
theorem randomizeResults_bijective_witness :
    (∀ v : (i : Fin (mapToSlice testMovies).length) → Fin (i.val + 1),
      (randomizeResults (drawsOfVector v) (mapToSlice testMovies)).Perm (mapToSlice testMovies)) ∧
    (∀ v w : (i : Fin (mapToSlice testMovies).length) → Fin (i.val + 1),
      randomizeResults (drawsOfVector v) (mapToSlice testMovies)
        = randomizeResults (drawsOfVector w) (mapToSlice testMovies) →
      v = w) ∧
    (∀ arrangement : List Movie, arrangement.Perm (mapToSlice testMovies) →
      ∃ v : (i : Fin (mapToSlice testMovies).length) → Fin (i.val + 1),
        randomizeResults (drawsOfVector v) (mapToSlice testMovies) = arrangement) ∧
    Fintype.card ((i : Fin (mapToSlice testMovies).length) → Fin (i.val + 1))
      = (mapToSlice testMovies).length.factorial ∧
    (mapToSlice testMovies).permutations.length = (mapToSlice testMovies).length.factorial ∧
    (mapToSlice testMovies).permutations.Nodup ∧
    ∀ arrangement : List Movie,
      arrangement ∈ (mapToSlice testMovies).permutations
        ↔ arrangement.Perm (mapToSlice testMovies) :=
  randomizeResults_bijective (mapToSlice testMovies) (by decide)

/-- C14. The sequence `FilterMoviesSync` returns is a rearrangement of the
titles of the dataset for which `shouldIncludeMovie` holds with the rating
looked up under the title's id: it contains those titles and no other
element, each as often as the dataset does, hence exactly once when the ids
of the dataset are pairwise distinct. Every returned title has its start
year, runtime, rating and vote count within the inclusive bounds of the
criteria. -/
theorem FilterMoviesSync_exact (t : CaseTables) (rnd : (i : Nat) → Fin (i + 1))
    (movies : GoMap Movie) (ratings : GoMap rating) (cfg : config) :
    (FilterMoviesSync t rnd movies ratings cfg).Perm
      ((mapToSlice movies).filter fun m =>
        shouldIncludeMovie t m (lookupRating ratings m.Id).1 (lookupRating ratings m.Id).2 cfg) ∧
    (∀ m, m ∈ FilterMoviesSync t rnd movies ratings cfg ↔
      m ∈ mapToSlice movies ∧
      shouldIncludeMovie t m (lookupRating ratings m.Id).1 (lookupRating ratings m.Id).2 cfg
        = true) ∧
    ((movies.map fun e => e.2.Id).Nodup →
      ∀ m ∈ FilterMoviesSync t rnd movies ratings cfg,
        (FilterMoviesSync t rnd movies ratings cfg).count m = 1) ∧
    ∀ m ∈ FilterMoviesSync t rnd movies ratings cfg,
      ∃ (year runtime : Int) (r : rating),
        m.StartYear = some year ∧ cfg.minYear ≤ year ∧ year ≤ cfg.maxYear ∧
        m.runtimeMinutes = some runtime ∧ cfg.minRuntime ≤ runtime ∧ runtime ≤ cfg.maxRuntime ∧
        ratings.get m.Id = some r ∧ r.AverageRating.ge cfg.minRating = true ∧
        cfg.minVotes ≤ r.NumVotes ∧ r.NumVotes ≤ cfg.maxVotes := by
  have hperm := FilterMoviesSync_perm t rnd movies ratings cfg
  refine ⟨hperm, fun m => FilterMoviesSync_mem t rnd movies ratings cfg m, ?_, ?_⟩
  · intro hids m hm
    have hidsl : ((mapToSlice movies).map Movie.Id).Nodup := by
      rw [mapToSlice_eq, List.map_map]
      exact hids
    have hnd : (mapToSlice movies).Nodup := List.Nodup.of_map _ hidsl
    have hmem := (FilterMoviesSync_mem t rnd movies ratings cfg m).1 hm
    rw [hperm.count_eq, List.count_filter hmem.2]
    exact List.count_eq_one_of_mem hnd hmem.1
  · intro m hm
    have hmem := ((FilterMoviesSync_mem t rnd movies ratings cfg m).1 hm).2
    unfold matchesTitle at hmem
    obtain ⟨_, ⟨year, hy, hy1, hy2⟩, ⟨runtime, hr, hr1, hr2⟩, ⟨hhas, hge, hv1, hv2⟩, _⟩ :=
      (shouldIncludeMovie_true_iff t m _ _ cfg).1 hmem
    cases hget : ratings.get m.Id with
    | none =>
      rw [lookupRating_snd, hget] at hhas
      exact Bool.noConfusion hhas
    | some r =>
      have hl : (lookupRating ratings m.Id).1 = r := by
        unfold lookupRating
        rw [hget]
      rw [hl] at hge hv1 hv2
      exact ⟨year, runtime, r, hy, hy1, hy2, hr, hr1, hr2, rfl, hge, hv1, hv2⟩

set_option maxRecDepth 100000 in
/-- C18 as stated fails: on the eight titles of the fixture with W = 5, a
worker count between 1 and 8, `partitionSlice` returns four chunks of two
titles, so four tasks are started, not five. -/
theorem partitionSlice_task_count_counterexample :
    (mapToSlice testMovies).length = 8 ∧
    ∃ chunks, partitionSlice 9 (mapToSlice testMovies) 5 = .ok chunks ∧
      chunks.length = 4 ∧ chunks.length ≠ 5 ∧ ∀ c ∈ chunks, c.length = 2 := by
  refine ⟨by decide, chunksOf (mapToSlice testMovies) 2, ?_, by decide, by decide, by decide⟩
  exact partitionSlice_eq 9 (mapToSlice testMovies) 5 (by decide) (by decide) (by decide)
    (by decide)

/-- C18 (amended). For a list of N titles that fits the address space and a
worker count W with 1 <= W <= N, `partitionSlice` returns
ceil(N / ceil(N / W)) chunks, one for each task `FilterMovies` starts: at
least one and at most W, and exactly W if and only if
(W - 1) * ceil(N / W) < N, which holds when W divides N. -/
theorem partitionSlice_task_count (fuel : Nat) (movies : List Movie) (W : Nat)
    (h1 : 1 ≤ W) (hWN : W ≤ movies.length)
    (hN : movies.length * movieSize ≤ maxAlloc) (hf : movies.length < fuel) :
    ∃ chunks,
      partitionSlice fuel movies (W : Int) = .ok chunks ∧
      chunks.length = ⌈(movies.length : ℚ) / (⌈(movies.length : ℚ) / (W : ℚ)⌉₊ : ℚ)⌉₊ ∧
      1 ≤ chunks.length ∧ chunks.length ≤ W ∧
      (chunks.length = W ↔ (W - 1) * ⌈(movies.length : ℚ) / (W : ℚ)⌉₊ < movies.length) ∧
      (W ∣ movies.length → chunks.length = W) := by
  have hW : W ≤ movies.length + 2 := by omega
  have h0 : 1 ≤ movies.length := by omega
  have hc := ceilDiv_pos movies.length W h1 h0
  have hle := ceilDiv_ceilDiv_le movies.length W h1 h0
  have hiff : ceilDiv movies.length (ceilDiv movies.length W) = W
      ↔ (W - 1) * ceilDiv movies.length W < movies.length := by
    rw [← lt_ceilDiv_iff movies.length (ceilDiv movies.length W) (W - 1) hc]
    omega
  refine ⟨_, partitionSlice_eq fuel movies W h1 hW hN hf, ?_, ?_, ?_, ?_, ?_⟩
  · rw [chunksOf_length, ← ceilDiv_eq_ceil _ _ h1, ← ceilDiv_eq_ceil _ _ hc]
  · rw [chunksOf_length]
    exact ceilDiv_pos _ _ hc h0
  · rw [chunksOf_length]
    exact hle
  · rw [chunksOf_length, ← ceilDiv_eq_ceil _ _ h1]
    exact hiff
  · intro hdvd
    rw [chunksOf_length, hiff]
    obtain ⟨q, hq⟩ := hdvd
    have hq1 : 1 ≤ q := by
      rcases Nat.eq_zero_or_pos q with h | h
      · subst h
        rw [Nat.mul_zero] at hq
        omega
      · exact h
    have hcq : ceilDiv movies.length W = q := by
      unfold ceilDiv
      rw [hq]
      apply Nat.div_eq_of_lt_le
      · rw [Nat.mul_comm q W]
        omega
      · rw [Nat.add_mul, Nat.mul_comm q W]
        omega
    rw [hcq, hq]
    have : (W - 1) * q + q = W * q := by
      obtain ⟨w, rfl⟩ : ∃ w, W = w + 1 := ⟨W - 1, by omega⟩
      simp [Nat.add_mul]
    omega

set_option maxRecDepth 100000 in
/-- C18 (amended), at the eight titles of the fixture with W = 4. -/
theorem partitionSlice_task_count_witness :
    ∃ chunks,
      partitionSlice 9 (mapToSlice testMovies) ((4 : Nat) : Int) = .ok chunks ∧
      chunks.length = ⌈((mapToSlice testMovies).length : ℚ)
        / (⌈((mapToSlice testMovies).length : ℚ) / ((4 : Nat) : ℚ)⌉₊ : ℚ)⌉₊ ∧
      1 ≤ chunks.length ∧ chunks.length ≤ 4 ∧
      (chunks.length = 4
        ↔ (4 - 1) * ⌈((mapToSlice testMovies).length : ℚ) / ((4 : Nat) : ℚ)⌉₊
            < (mapToSlice testMovies).length) ∧
      (4 ∣ (mapToSlice testMovies).length → chunks.length = 4) :=
  partitionSlice_task_count 9 (mapToSlice testMovies) 4 (by decide) (by decide) (by decide)
    (by decide)

/-- C19 (amended). Let C' widen C: its year, runtime and vote bounds contain
those of C, its rating floor is not above that of C, it excludes adult
titles only if C does, and its requested genres are either empty or, C
requesting at least one genre, contain every requested genre of C. Then a
title that `shouldIncludeMovie` accepts under C is accepted under C', and
every title `FilterMoviesSync` returns under C is returned under C'. -/
theorem shouldIncludeMovie_widen (t : CaseTables) (c c' : config)
    (hminYear : c'.minYear ≤ c.minYear) (hmaxYear : c.maxYear ≤ c'.maxYear)
    (hminRuntime : c'.minRuntime ≤ c.minRuntime) (hmaxRuntime : c.maxRuntime ≤ c'.maxRuntime)
    (hminRating : Float64.le c'.minRating c.minRating = true)
    (hminVotes : c'.minVotes ≤ c.minVotes) (hmaxVotes : c.maxVotes ≤ c'.maxVotes)
    (hadult : c'.excludeAdult = true → c.excludeAdult = true)
    (hgenres : c'.genres = [] ∨ (c.genres ≠ [] ∧ ∀ g ∈ c.genres, g ∈ c'.genres)) :
    (∀ (movie : Movie) (r : rating) (hasRating : Bool),
      shouldIncludeMovie t movie r hasRating c = true →
      shouldIncludeMovie t movie r hasRating c' = true) ∧
    ∀ (rnd rnd' : (i : Nat) → Fin (i + 1)) (movies movies' : GoMap Movie)
      (ratings : GoMap rating), movies'.Perm movies →
      ∀ m ∈ FilterMoviesSync t rnd movies ratings c,
        m ∈ FilterMoviesSync t rnd' movies' ratings c' := by
  have key : ∀ (movie : Movie) (r : rating) (hasRating : Bool),
      shouldIncludeMovie t movie r hasRating c = true →
      shouldIncludeMovie t movie r hasRating c' = true := by
    intro movie r hasRating h
    rw [shouldIncludeMovie_true_iff] at h ⊢
    obtain ⟨had, ⟨year, hy, hy1, hy2⟩, ⟨runtime, hr, hr1, hr2⟩, ⟨hhas, hge, hv1, hv2⟩, hg⟩ := h
    refine ⟨?_, ⟨year, hy, by omega, by omega⟩, ⟨runtime, hr, by omega, by omega⟩,
      ⟨hhas, ?_, by omega, by omega⟩, ?_⟩
    · cases hex : c'.excludeAdult with
      | false => exact Or.inl rfl
      | true =>
        rcases had with had | had
        · rw [hadult hex] at had
          exact Bool.noConfusion had
        · exact Or.inr had
    · exact float64_le_trans _ _ _ hminRating hge
    · rw [passesGenreFilter_true_iff] at hg ⊢
      rcases hgenres with hempty | ⟨hne, hsub⟩
      · exact Or.inl hempty
      · rcases hg with hg | ⟨g, hg, hm⟩
        · exact absurd hg hne
        · exact Or.inr ⟨g, hsub g hg, hm⟩
  refine ⟨key, ?_⟩
  intro rnd rnd' movies movies' ratings hperm m hm
  rw [FilterMoviesSync_mem] at hm ⊢
  exact ⟨(mapToSlice_perm movies movies' hperm).mem_iff.2 hm.1, key m _ _ hm.2⟩

/-- C19 (amended), widening the criteria of
`TestFilterMovies_CombinedFilters` to the widest criteria. -/
theorem shouldIncludeMovie_widen_witness :
    (∀ (movie : Movie) (r : rating) (hasRating : Bool),
      shouldIncludeMovie fixtureTables movie r hasRating combinedConfig = true →
      shouldIncludeMovie fixtureTables movie r hasRating wideConfig = true) ∧
    ∀ (rnd rnd' : (i : Nat) → Fin (i + 1)) (movies movies' : GoMap Movie)
      (ratings : GoMap rating), movies'.Perm movies →
      ∀ m ∈ FilterMoviesSync fixtureTables rnd movies ratings combinedConfig,
        m ∈ FilterMoviesSync fixtureTables rnd' movies' ratings wideConfig :=
  shouldIncludeMovie_widen fixtureTables combinedConfig wideConfig (by decide) (by decide)
    (by decide) (by decide) (by simp [Float64.le, wideConfig, combinedConfig])
    (by decide) (by decide) (by decide) (Or.inl rfl)

/-- C19 as stated fails: the criteria that request the genre "Drama" and are
otherwise the widest criteria satisfy every condition of the statement
against the widest criteria, which request no genre (there is no requested
genre to contain), yet the first title of the fixture, tagged "Action", is
accepted under the widest criteria and rejected under the others. -/
theorem shouldIncludeMovie_widen_counterexample :
    (genreConfig [bytes "Drama"]).minYear ≤ wideConfig.minYear ∧
    wideConfig.maxYear ≤ (genreConfig [bytes "Drama"]).maxYear ∧
    (genreConfig [bytes "Drama"]).minRuntime ≤ wideConfig.minRuntime ∧
    wideConfig.maxRuntime ≤ (genreConfig [bytes "Drama"]).maxRuntime ∧
    Float64.le (genreConfig [bytes "Drama"]).minRating wideConfig.minRating = true ∧
    (genreConfig [bytes "Drama"]).minVotes ≤ wideConfig.minVotes ∧
    wideConfig.maxVotes ≤ (genreConfig [bytes "Drama"]).maxVotes ∧
    ((genreConfig [bytes "Drama"]).excludeAdult = true → wideConfig.excludeAdult = true) ∧
    ((genreConfig [bytes "Drama"]).genres = [] ∨
      ∀ g ∈ wideConfig.genres, g ∈ (genreConfig [bytes "Drama"]).genres) ∧
    shouldIncludeMovie fixtureTables firstTitle (lookupRating testRatings firstTitle.Id).1
      (lookupRating testRatings firstTitle.Id).2 wideConfig = true ∧
    shouldIncludeMovie fixtureTables firstTitle (lookupRating testRatings firstTitle.Id).1
      (lookupRating testRatings firstTitle.Id).2 (genreConfig [bytes "Drama"]) = false := by
  have hl : lookupRating testRatings firstTitle.Id
      = (createTestRating (.fin (17 / 2)) 10000, true) := rfl
  have hdrama : normalizeGenre fixtureTables (bytes "Drama") = bytes "Drama" := by
    rw [normalizeGenre_of_isASCII _ _ (by decide)]
    decide
  refine ⟨le_refl _, le_refl _, le_refl _, le_refl _, by simp [Float64.le, genreConfig, wideConfig],
    le_refl _, le_refl _, fun h => h, Or.inr (fun g hg => absurd hg (List.not_mem_nil g)), ?_, ?_⟩
  · rw [hl, shouldIncludeMovie_true_iff]
    refine ⟨Or.inl rfl, ⟨2020, rfl, by decide, by decide⟩, ⟨120, rfl, by decide, by decide⟩,
      ⟨rfl, ?_, by decide, by decide⟩, (passesGenreFilter_true_iff _ _ _).2 (Or.inl rfl)⟩
    simp [createTestRating, wideConfig, Float64.ge, Float64.le]
    norm_num
  · rw [Bool.eq_false_iff]
    intro h
    rw [shouldIncludeMovie_true_iff] at h
    rcases (passesGenreFilter_true_iff _ _ _).1 h.2.2.2.2 with hg | ⟨g, hg, hm⟩
    · exact absurd hg (by decide)
    · have : g = bytes "Drama" := by simpa [genreConfig] using hg
      subst this
      rw [hdrama] at hm
      exact absurd hm (by decide)

/-- On the fixture of `setupTestData`, visited in any order, with the
criteria of `TestFilterMovies_CombinedFilters`, the ids returned are exactly
1, 3 and 5, three elements, for `FilterMoviesSync` and for `FilterMovies`
with a resolved worker count W such that 1 <= W <= 10. -/
theorem fixture_combined_ids (t : CaseTables) (fuel : Nat) (numCPU : Int)
    (altWorkers : GoString) (sched : List Nat) (rnd rnd2 : (i : Nat) → Fin (i + 1))
    (movies : GoMap Movie) (W : Nat)
    (hfix : movies.Perm testMovies)
    (hres : numWorkers numCPU altWorkers = (W : Int))
    (h1 : 1 ≤ W) (hWN : W ≤ 10) (hf : 8 < fuel) :
    ((FilterMoviesSync t rnd2 movies testRatings combinedConfig).length = 3 ∧
      ∀ id, id ∈ (FilterMoviesSync t rnd2 movies testRatings combinedConfig).map Movie.Id
        ↔ id = bytes "1" ∨ id = bytes "3" ∨ id = bytes "5") ∧
    ∃ results,
      FilterMovies t fuel numCPU altWorkers sched rnd movies testRatings combinedConfig
        = .ok results ∧
      results.length = 3 ∧
      ∀ id, id ∈ results.map Movie.Id ↔ id = bytes "1" ∨ id = bytes "3" ∨ id = bytes "5" := by
  have hlen : movies.length = 8 := hfix.length_eq
  have hN : movies.length * movieSize ≤ maxAlloc := by
    rw [hlen]
    decide
  have hfilter : (((mapToSlice movies).filter (matchesTitle t testRatings combinedConfig)).map
      Movie.Id).Perm [bytes "1", bytes "3", bytes "5"] := by
    rw [← testMovies_filter_combined t]
    exact (((mapToSlice_perm testMovies movies hfix).filter _).map _)
  have hmem : ∀ id, id ∈ [bytes "1", bytes "3", bytes "5"]
      ↔ id = bytes "1" ∨ id = bytes "3" ∨ id = bytes "5" := by
    intro id
    simp
  constructor
  · have hp := ((FilterMoviesSync_perm t rnd2 movies testRatings combinedConfig).map
      Movie.Id).trans hfilter
    refine ⟨?_, fun id => ?_⟩
    · have := hp.length_eq
      simpa using this
    · rw [hp.mem_iff, hmem]
  · obtain ⟨results, hr, hperm⟩ := FilterMovies_ok t fuel numCPU altWorkers sched rnd movies
      testRatings combinedConfig W hres h1 (by omega) hN (by omega)
    have hp := (hperm.map Movie.Id).trans hfilter
    refine ⟨results, hr, ?_, fun id => ?_⟩
    · have := hp.length_eq
      simpa using this
    · rw [hp.mem_iff, hmem]

set_option maxRecDepth 100000 in
/-- C15. With `IMDB_SEARCH_WORKERS=9223372036854775807`, a worker count that
is at least 1, `FilterMovies` panics on the fixture with the criteria of
`TestFilterMovies_CombinedFilters`: it returns no ids, where the ids 1, 3
and 5 are expected for every worker count. -/
theorem fixture_combined_maxInt_workers_panics :
    numWorkers 4 (bytes "9223372036854775807") = 9223372036854775807 ∧
    FilterMovies fixtureTables 9 4 (bytes "9223372036854775807") [] zeroDraws testMovies
      testRatings combinedConfig = .panicked ∧
    ¬ ∃ fuel sched rnd results,
      FilterMovies fixtureTables fuel 4 (bytes "9223372036854775807") sched rnd testMovies
        testRatings combinedConfig = .ok results ∧ results.length = 3 := by
  have hw : numWorkers 4 (bytes "9223372036854775807") = 9223372036854775807 := by decide
  have hp : ∀ fuel, partitionSlice fuel (mapToSlice testMovies)
      (numWorkers 4 (bytes "9223372036854775807")) = .panicked := by
    intro fuel
    rw [hw]
    exact partitionSlice_panicked_of_cap fuel _ _ (by decide) (by decide)
  refine ⟨hw, ?_, ?_⟩
  · unfold FilterMovies
    simp only [hp]
  · rintro ⟨fuel, sched, rnd, results, h, _⟩
    unfold FilterMovies at h
    simp only [hp] at h
    exact Outcome.noConfusion h

/-- For a dataset of N titles that fits the address space and criteria whose
year bound no title of it satisfies (minYear > maxYear, or no start year of
the dataset within [minYear, maxYear]), `FilterMoviesSync` returns the
empty sequence and `FilterMovies`, with a resolved worker count W such that
1 <= W <= N + 2, returns the empty sequence as well. -/
theorem impossible_year_empty (t : CaseTables) (fuel : Nat) (numCPU : Int)
    (altWorkers : GoString) (sched : List Nat) (rnd rnd2 : (i : Nat) → Fin (i + 1))
    (movies : GoMap Movie) (ratings : GoMap rating) (cfg : config) (W : Nat)
    (himp : cfg.maxYear < cfg.minYear ∨
      ∀ m ∈ mapToSlice movies, ∀ year, m.StartYear = some year →
        ¬ (cfg.minYear ≤ year ∧ year ≤ cfg.maxYear))
    (hres : numWorkers numCPU altWorkers = (W : Int))
    (h1 : 1 ≤ W) (hWN : W ≤ movies.length + 2)
    (hN : movies.length * movieSize ≤ maxAlloc) (hf : movies.length < fuel) :
    FilterMoviesSync t rnd2 movies ratings cfg = [] ∧
    FilterMovies t fuel numCPU altWorkers sched rnd movies ratings cfg = .ok [] := by
  have hnone : (mapToSlice movies).filter (matchesTitle t ratings cfg) = [] := by
    rw [List.filter_eq_nil_iff]
    intro m hm hmatch
    unfold matchesTitle at hmatch
    obtain ⟨_, ⟨year, hy, hy1, hy2⟩, _⟩ := (shouldIncludeMovie_true_iff t m _ _ cfg).1 hmatch
    rcases himp with h | h
    · omega
    · exact h m hm year hy ⟨hy1, hy2⟩
  constructor
  · have := FilterMoviesSync_perm t rnd2 movies ratings cfg
    rw [hnone] at this
    exact this.eq_nil
  · obtain ⟨results, hr, hperm⟩ := FilterMovies_ok t fuel numCPU altWorkers sched rnd movies
      ratings cfg W hres h1 hWN hN hf
    rw [hnone] at hperm
    rw [hr, hperm.eq_nil]

set_option maxRecDepth 100000 in
/-- C16. On a dataset of two titles, none of which passes the year filter of
the years 2030 to 2040, and with `IMDB_SEARCH_WORKERS=9223372036854775807`,
`FilterMovies` panics: it fails, and returns no sequence, empty or not. -/
theorem impossible_year_override_panics :
    (∀ m ∈ mapToSlice twoMovies, passesYearFilter m noResultsConfig = false) ∧
    FilterMovies fixtureTables 9 4 (bytes "9223372036854775807") [] zeroDraws twoMovies
      testRatings noResultsConfig = .panicked ∧
    ¬ ∃ fuel sched rnd,
      FilterMovies fixtureTables fuel 4 (bytes "9223372036854775807") sched rnd twoMovies
        testRatings noResultsConfig = .ok [] := by
  have hw : numWorkers 4 (bytes "9223372036854775807") = 9223372036854775807 := by decide
  have hp : ∀ fuel, partitionSlice fuel (mapToSlice twoMovies)
      (numWorkers 4 (bytes "9223372036854775807")) = .panicked := by
    intro fuel
    rw [hw]
    exact partitionSlice_panicked_of_cap fuel _ _ (by decide) (by decide)
  refine ⟨by decide, ?_, ?_⟩
  · unfold FilterMovies
    simp only [hp]
  · rintro ⟨fuel, sched, rnd, h⟩
    unfold FilterMovies at h
    simp only [hp] at h
    exact Outcome.noConfusion h

/-- For a dataset of N titles that fits the address space (the empty one
included), any ratings table, any criteria and a resolved worker count W
such that 1 <= W <= N + 2: `partitionSlice` returns within one iteration more than there are titles,
without a division by zero and without a slice expression out of range; on
a non-empty dataset the chunk size is at least 1 and the loop index grows
in every iteration; the year and runtime filters answer false for an absent
year or runtime instead of reading it; and `FilterMovies` and
`FilterMoviesSync` return a sequence, of at most as many titles as the
dataset has. -/
theorem engine_returns (t : CaseTables) (fuel : Nat) (numCPU : Int) (altWorkers : GoString)
    (sched : List Nat) (rnd rnd2 : (i : Nat) → Fin (i + 1)) (movies : GoMap Movie)
    (ratings : GoMap rating) (cfg : config) (W : Nat)
    (hres : numWorkers numCPU altWorkers = (W : Int))
    (h1 : 1 ≤ W) (hWN : W ≤ movies.length + 2)
    (hN : movies.length * movieSize ≤ maxAlloc) (hf : movies.length < fuel) :
    (∃ chunks, partitionSlice fuel (mapToSlice movies) (W : Int) = .ok chunks) ∧
    (movies ≠ [] →
      1 ≤ wrapInt (Int.tdiv (wrapInt (wrapInt (((mapToSlice movies).length : Int) + (W : Int))
        - 1)) (W : Int)) ∧
      ∀ i : Int, 0 ≤ i → i < ((mapToSlice movies).length : Int) →
        i < wrapInt (i + wrapInt (Int.tdiv
          (wrapInt (wrapInt (((mapToSlice movies).length : Int) + (W : Int)) - 1)) (W : Int)))) ∧
    (∀ movie : Movie, movie.StartYear = none → passesYearFilter movie cfg = false) ∧
    (∀ movie : Movie, movie.runtimeMinutes = none → passesRuntimeFilter movie cfg = false) ∧
    (∃ results,
      FilterMovies t fuel numCPU altWorkers sched rnd movies ratings cfg = .ok results ∧
      results.length ≤ movies.length) ∧
    ∃ results,
      FilterMoviesSync t rnd2 movies ratings cfg = results ∧ results.length ≤ movies.length := by
  have hlen := mapToSlice_length movies
  have hfilter : ((mapToSlice movies).filter (matchesTitle t ratings cfg)).length
      ≤ movies.length := by
    rw [← hlen]
    exact List.length_filter_le _ _
  refine ⟨⟨_, partitionSlice_eq fuel (mapToSlice movies) W h1 (by rw [hlen]; exact hWN)
    (by rw [hlen]; exact hN) (by rw [hlen]; exact hf)⟩, ?_, ?_, ?_, ?_, ?_⟩
  · intro hne
    have h0 : 1 ≤ movies.length := List.length_pos.2 hne
    rw [hlen, chunkSize_eq movies.length W h1 hWN hN]
    have hc := ceilDiv_pos movies.length W h1 h0
    have hcle := ceilDiv_le_self movies.length W h1
    refine ⟨by exact_mod_cast hc, ?_⟩
    intro i hi0 hilt
    simp only [maxAlloc, movieSize] at hN
    rw [wrapInt_of_inRange] <;> omega
  · intro movie h
    simp [passesYearFilter, h]
  · intro movie h
    simp [passesRuntimeFilter, h]
  · obtain ⟨results, hr, hperm⟩ := FilterMovies_ok t fuel numCPU altWorkers sched rnd movies
      ratings cfg W hres h1 hWN hN hf
    exact ⟨results, hr, by rw [hperm.length_eq]; exact hfilter⟩
  · exact ⟨_, rfl, by
      rw [(FilterMoviesSync_perm t rnd2 movies ratings cfg).length_eq]
      exact hfilter⟩

set_option maxRecDepth 100000 in
/-- C17. The engine fails: with the resolved worker count
9223372036854775807 on a dataset of two titles the sum
`len(movies) + numWorkers - 1` wraps and the chunk size is -1, not at least
1; `partitionSlice` panics, and so does `FilterMovies`, which returns no
sequence. -/
theorem engine_maxInt_workers_panics :
    numWorkers 4 (bytes "9223372036854775807") = maxInt ∧
    (1 : Int) ≤ maxInt ∧
    wrapInt (Int.tdiv (wrapInt (wrapInt (((mapToSlice twoMovies).length : Int) + maxInt) - 1))
      maxInt) = -1 ∧
    partitionSlice 3 (mapToSlice twoMovies) maxInt = .panicked ∧
    FilterMovies fixtureTables 3 4 (bytes "9223372036854775807") [] zeroDraws twoMovies
      testRatings wideConfig = .panicked ∧
    ¬ ∃ fuel sched rnd results,
      FilterMovies fixtureTables fuel 4 (bytes "9223372036854775807") sched rnd twoMovies
        testRatings wideConfig = .ok results := by
  have hw : numWorkers 4 (bytes "9223372036854775807") = maxInt := by decide
  have hp : ∀ fuel, partitionSlice fuel (mapToSlice twoMovies)
      (numWorkers 4 (bytes "9223372036854775807")) = .panicked := by
    intro fuel
    rw [hw]
    exact partitionSlice_panicked_of_cap fuel _ _ (by decide) (by decide)
  refine ⟨hw, by decide, by decide,
    partitionSlice_panicked_of_cap 3 _ _ (by decide) (by decide), ?_, ?_⟩
  · unfold FilterMovies
    simp only [hp]
  · rintro ⟨fuel, sched, rnd, results, h⟩
    unfold FilterMovies at h
    simp only [hp] at h
    exact Outcome.noConfusion h

end Search
